import Mathlib

/-!
# Cmd: the interactive command prompt and its network report

A shallow embedding of `src/Cmd.cpp` (class `CommandPrompt`) and
`src/network_utils.h` (class `NetworkUtils`), POSIX build (the `#else`
branches of the `_WIN32` conditionals).

Modelling conventions
* A `std::string` is a `List Char` (`Str`); a character stands for one byte.
* `size_t` values are natural numbers; `npos` is `2^64 - 1` and the additions
  the source performs on the result of a search wrap modulo `2^64`.
* `std::cout` is the text appended so far; `std::endl` appends a line feed.
* The operating system is a value of an arbitrary type `W` together with a
  record `Host W` of the calls the program makes (`getcwd`, `chdir`, `getenv`,
  `system`, `opendir`/`readdir`, `stat`, `getifaddrs`).
* `std::out_of_range` (the only exception the string operations used here can
  raise) is `none`; `run` surfaces it as the ending `thrown`.
* A call that takes a `const char*` is given `s.c_str()`, which the callee
  reads up to the first NUL byte: the model hands the host `c_str s`.
* Every string handed to `system` is also recorded, in order, in a list
  `calls`, so that what reaches the host interpreter can be stated.
-/

namespace Cmd

set_option maxRecDepth 100000

/-- A `std::string`. -/
abbrev Str := List Char

instance : Coe String Str := ⟨String.toList⟩

/-! ## size_t and characters -/

/-- The constant `std::string::npos`. -/
def npos : Nat := 2 ^ 64 - 1

/-- Addition on `size_t`. -/
def sizeAdd (a b : Nat) : Nat := (a + b) % 2 ^ 64

/-- The classification `isspace` of the "C" locale, which `operator>>` uses to
delimit tokens: space, and the control characters 9 to 13. -/
def isspace (c : Char) : Bool := c.toNat = 32 || (9 ≤ c.toNat && c.toNat ≤ 13)

/-- The function `::tolower` of the "C" locale. -/
def tolower (c : Char) : Char :=
  if 65 ≤ c.toNat ∧ c.toNat ≤ 90 then Char.ofNat (c.toNat + 32) else c

/-! ## The std::string operations the program uses -/

/-- The call `s.find(c)`. -/
def find (s : Str) (c : Char) : Nat :=
  if s.indexOf c < s.length then s.indexOf c else npos

/-- The call `s.find_first_not_of(set)`. -/
def find_first_not_of (s set : Str) : Nat :=
  if s.findIdx (fun c => !(set.contains c)) < s.length
  then s.findIdx (fun c => !(set.contains c)) else npos

/-- The call `s.find_last_not_of(set)`. -/
def find_last_not_of (s set : Str) : Nat :=
  if s.reverse.findIdx (fun c => !(set.contains c)) < s.length
  then s.length - 1 - s.reverse.findIdx (fun c => !(set.contains c)) else npos

/-- The call `s.find_last_of(set)`. -/
def find_last_of (s set : Str) : Nat :=
  if s.reverse.findIdx (fun c => set.contains c) < s.length
  then s.length - 1 - s.reverse.findIdx (fun c => set.contains c) else npos

/-- The call `s.substr(pos)`: the text from `pos` to the end. -/
def substr (s : Str) (pos : Nat) : Option Str :=
  if pos ≤ s.length then some (s.drop pos) else none

/-- The call `s.substr(pos, n)`. -/
def substr2 (s : Str) (pos n : Nat) : Option Str :=
  if pos ≤ s.length then some ((s.drop pos).take n) else none

/-- The call `s.erase(pos)`: drops everything from `pos` on. -/
def erase (s : Str) (pos : Nat) : Option Str :=
  if pos ≤ s.length then some (s.take pos) else none

/-- The call `s.erase(pos, n)`. -/
def erase2 (s : Str) (pos n : Nat) : Option Str :=
  if pos ≤ s.length then some (s.take pos ++ (s.drop pos).drop n) else none

/-- The call `s.c_str()` as the callee reads it: the bytes of `s` before its
first NUL byte. A `std::string` may hold NUL bytes (`getline` and `operator>>`
pass them on); a C string ends at the first one. -/
def c_str (s : Str) : Str := s.takeWhile (fun c => c != Char.ofNat 0)

/-- Decimal text of an unsigned value, as `operator<<` prints it. -/
def showNat (n : Nat) : Str := Nat.toDigits 10 n

/-- Decimal text of an `int`, as `operator<<` prints it. -/
def showInt : Int → Str
  | Int.ofNat n => showNat n
  | Int.negSucc n => '-' :: showNat (n + 1)

/-! ## The alias table (std::map<std::string, std::string>) -/

/-- The alias table: its entries, in the iteration order of the map. -/
abbrev AliasMap := List (Str × Str)

/-- The ordering `std::less<std::string>` of the keys. -/
def strLess : Str → Str → Bool
  | _, [] => false
  | [], _ :: _ => true
  | a :: as, b :: bs =>
    if a.toNat < b.toNat then true
    else if b.toNat < a.toNat then false
    else strLess as bs

/-- The call `aliases.find(key)`: the mapped value, or `none` for `end()`. -/
def mapFind : AliasMap → Str → Option Str
  | [], _ => none
  | (k, v) :: m, key => if k = key then some v else mapFind m key

/-- The statement `aliases[key] = value`. -/
def mapAssign : AliasMap → Str → Str → AliasMap
  | [], key, value => [(key, value)]
  | (k, v) :: m, key, value =>
    if k = key then (key, value) :: m
    else if strLess key k then (key, value) :: (k, v) :: m
    else (k, v) :: mapAssign m key value

/-! ## The host operating system -/

/-- One entry of the list `getifaddrs` yields, as far as the program reads it. -/
structure IfAddr where
  /-- The field `ifa_name`. -/
  ifa_name : Str
  /-- The field `ifa_addr`: `none` for a null pointer, else the address family
  and the text `inet_ntoa` gives for the address. -/
  ifa_addr : Option (Nat × Str)
  /-- The text `inet_ntoa` gives for `ifa_netmask`. -/
  ifa_netmask : Str
  /-- Whether `ifa_flags` has `IFF_UP`. -/
  flagUp : Bool
  /-- Whether `ifa_flags` has `IFF_LOOPBACK`. -/
  flagLoopback : Bool

/-- The operating-system calls of the program, over a state `W` of the system. -/
structure Host (W : Type) where
  /-- The call `getcwd(nullptr, 0)`; `none` for a null result. -/
  getcwd : W → Option Str
  /-- The call `chdir(path)` on a C string: whether it returned 0, and the
  system afterwards. -/
  chdir : Str → W → Bool × W
  /-- The call `getenv("HOME")`. -/
  getenvHome : W → Option Str
  /-- The call `system(command)` on a C string: its result and the system
  afterwards. -/
  system : Str → W → Int × W
  /-- The entries `readdir` yields after `opendir(path)`; `none` when
  `opendir` fails. -/
  opendir : Str → W → Option (List Str)
  /-- The call `stat(path)`: `none` when it fails, else `S_ISDIR`. -/
  stat : Str → W → Option Bool
  /-- The call `getifaddrs`: `none` when it returns -1. -/
  getifaddrs : W → Option (List IfAddr)

/-! ## network_utils.h -/

/-- The record `NetworkInterface`. -/
structure NetworkInterface where
  /-- Interface name. -/
  name : Str
  /-- IPv4 address. -/
  ipAddress : Str
  /-- Subnet mask. -/
  subnetMask : Str
  /-- Hardware address. -/
  macAddress : Str
  /-- Gateway. -/
  gateway : Str
  /-- Up flag. -/
  isUp : Bool
  /-- Loopback flag. -/
  isLoopback : Bool
deriving DecidableEq

/-- The constant `AF_INET`. -/
def AF_INET : Nat := 2

/-- The loop of `NetworkUtils::getUnixInterfaces` over the address list. -/
def getUnixInterfacesLoop : List IfAddr → List NetworkInterface → List NetworkInterface
  | [], interfaces => interfaces
  | ifa :: next, interfaces =>
    match ifa.ifa_addr with
    | none => getUnixInterfacesLoop next interfaces
    | some (family, addr) =>
      if family = AF_INET then
        let isUp := ifa.flagUp
        let isLoopback := ifa.flagLoopback
        let gateway : Str := if !isLoopback && isUp then "192.168.1.1" else []
        getUnixInterfacesLoop next
          (interfaces ++ [⟨ifa.ifa_name, addr, ifa.ifa_netmask, [], gateway, isUp, isLoopback⟩])
      else getUnixInterfacesLoop next interfaces

/-- `NetworkUtils::getNetworkInterfaces` (through `getUnixInterfaces`): the
text printed while enumerating, and the records. -/
def getNetworkInterfaces {W : Type} (h : Host W) (w : W) : Str × List NetworkInterface :=
  match h.getifaddrs w with
  | none => ("Error getting network interfaces\n", [])
  | some ifaddr => ([], getUnixInterfacesLoop ifaddr [])

/-- The first loop of `displayIpConfig`: one block per record that is not
loopback-flagged. -/
def ethernetLoop : List NetworkInterface → Str → Str
  | [], out => out
  | iface :: rest, out =>
    if iface.isLoopback then ethernetLoop rest out
    else
      let out := out ++ "Ethernet adapter " ++ iface.name ++ ":\n"
      let out := out ++ "   Connection-specific DNS Suffix  . :\n"
      let out := out ++ "   Link-local IPv6 Address . . . . . : (Not available)\n"
      let out := out ++ "   IPv4 Address. . . . . . . . . . . : " ++ iface.ipAddress ++ "\n"
      let out := out ++ "   Subnet Mask . . . . . . . . . . . : " ++ iface.subnetMask ++ "\n"
      let out := if !iface.gateway.isEmpty
        then out ++ "   Default Gateway . . . . . . . . . : " ++ iface.gateway ++ "\n" else out
      let out := if !iface.macAddress.isEmpty
        then out ++ "   Physical Address. . . . . . . . . : " ++ iface.macAddress ++ "\n" else out
      let out := out ++ "\n"
      ethernetLoop rest out

/-- The second loop of `displayIpConfig`: it stops at the first
loopback-flagged record. -/
def tunnelLoop : List NetworkInterface → Str → Str
  | [], out => out
  | iface :: rest, out =>
    if iface.isLoopback then
      let out := out ++ "Tunnel adapter " ++ iface.name ++ ":\n"
      let out := out ++ "   IPv4 Address. . . . . . . . . . . : " ++ iface.ipAddress ++ "\n"
      let out := out ++ "   Subnet Mask . . . . . . . . . . . : " ++ iface.subnetMask ++ "\n"
      out ++ "\n"
    else tunnelLoop rest out

/-- `NetworkUtils::displayIpConfig`: the text it prints. -/
def displayIpConfig {W : Type} (h : Host W) (w : W) : Str :=
  let out : Str := "\nWindows IP Configuration\n\n"
  let r := getNetworkInterfaces h w
  let out := out ++ r.1
  let interfaces := r.2
  if interfaces.isEmpty then out ++ "No network interfaces found.\n"
  else tunnelLoop interfaces (ethernetLoop interfaces out)

/-! ## Cmd.cpp: class CommandPrompt -/

/-- The data members of `CommandPrompt`. -/
structure CommandPrompt where
  /-- The member `history`. -/
  history : List Str
  /-- The member `currentDir`. -/
  currentDir : Str
  /-- The member `aliases`. -/
  aliases : AliasMap

/-- `CommandPrompt::updateCurrentDir`. -/
def updateCurrentDir {W : Type} (h : Host W) (self : CommandPrompt) (w : W) : CommandPrompt :=
  match h.getcwd w with
  | some cwd => { self with currentDir := cwd }
  | none => self

/-- The extraction loop `while (iss >> token)` of `parseCommand`: `token`
holds the characters of the token being read. -/
def parseLoop : Str → Str → List Str
  | [], token => if token.isEmpty then [] else [token]
  | c :: rest, token =>
    if isspace c then
      if token.isEmpty then parseLoop rest [] else token :: parseLoop rest []
    else parseLoop rest (token ++ [c])

/-- `CommandPrompt::parseCommand`. -/
def parseCommand (input : Str) : List Str := parseLoop input []

/-- The loop of `executeSystemCommand` that builds `command`, from index `i`. -/
def joinLoop : List Str → Nat → Str → Str
  | [], _, command => command
  | arg :: rest, i, command =>
    let command := if i > 0 then command ++ " " else command
    joinLoop rest (i + 1) (command ++ arg)

/-- `CommandPrompt::executeSystemCommand`: the system afterwards, the text
printed, and the strings handed to `system`. The call is
`system(command.c_str())`. -/
def executeSystemCommand {W : Type} (h : Host W) (w : W) (args : List Str) :
    W × Str × List Str :=
  if args.isEmpty then (w, [], [])
  else
    let command := joinLoop args 0 []
    let result := (h.system (c_str command) w).1
    if result ≠ 0 then
      ((h.system (c_str command) w).2,
        "Command failed with exit code: " ++ showInt result ++ "\n", [c_str command])
    else ((h.system (c_str command) w).2, [], [c_str command])

/-- `CommandPrompt::showHelp`: the text it prints. -/
def showHelp : Str :=
  "\n=== Custom Command Prompt Help ===\n" ++
  "Built-in commands:\n" ++
  "  help          - Show this help message\n" ++
  "  exit/quit     - Exit the command prompt\n" ++
  "  clear/cls     - Clear the screen\n" ++
  "  pwd           - Print working directory\n" ++
  "  cd <dir>      - Change directory\n" ++
  "  ls/dir        - List directory contents\n" ++
  "  history       - Show command history\n" ++
  "  alias <name>=<command> - Create command alias\n" ++
  "  aliases       - Show all aliases\n" ++
  "  echo <text>   - Echo text to console\n" ++
  "\nAll other commands are passed to the system shell.\n" ++
  "=======================================\n\n"

/-- `CommandPrompt::clearScreen`: the system afterwards and the string handed
to `system`. -/
def clearScreen {W : Type} (h : Host W) (w : W) : W × List Str :=
  ((h.system "clear" w).2, [("clear" : Str)])

/-- The `readdir` loop of `listDirectory`. -/
def listLoop {W : Type} (h : Host W) (currentDir : Str) (w : W) : List Str → Str → Str
  | [], out => out
  | d_name :: rest, out =>
    if d_name ≠ ("." : Str) ∧ d_name ≠ (".." : Str) then
      let fullPath := currentDir ++ "/" ++ d_name
      let out :=
        match h.stat (c_str fullPath) w with
        | some isDir => out ++ (if isDir then ("[DIR]  " : Str) else ("[FILE] " : Str))
        | none => out ++ "[????] "
      listLoop h currentDir w rest (out ++ d_name ++ "\n")
    else listLoop h currentDir w rest out

/-- `CommandPrompt::listDirectory`: the text it prints. -/
def listDirectory {W : Type} (h : Host W) (self : CommandPrompt) (w : W) : Str :=
  match h.opendir (c_str self.currentDir) w with
  | none => "Error accessing directory\n"
  | some entries => listLoop h self.currentDir w entries []

/-- `CommandPrompt::changeDirectory`: the object and the system afterwards,
and the text printed. The calls are `chdir(home)` on the C string `getenv`
gave and `chdir(path.c_str())`. -/
def changeDirectory {W : Type} (h : Host W) (self : CommandPrompt) (w : W) (path : Str) :
    CommandPrompt × W × Str :=
  if path.isEmpty ∨ path = ("~" : Str) then
    match h.getenvHome w with
    | some home =>
      if (h.chdir home w).1 then
        let self1 := updateCurrentDir h self (h.chdir home w).2
        (self1, (h.chdir home w).2, "Changed to: " ++ self1.currentDir ++ "\n")
      else (self, (h.chdir home w).2, "Could not change to home directory\n")
    | none => (self, w, "Could not change to home directory\n")
  else
    if (h.chdir (c_str path) w).1 then
      let self1 := updateCurrentDir h self (h.chdir (c_str path) w).2
      (self1, (h.chdir (c_str path) w).2, "Changed to: " ++ self1.currentDir ++ "\n")
    else (self, (h.chdir (c_str path) w).2, "Directory not found: " ++ path ++ "\n")

/-- The loop of `showHistory`, from index `i`. -/
def historyLoop : List Str → Nat → Str → Str
  | [], _, out => out
  | entry :: rest, i, out =>
    historyLoop rest (i + 1) (out ++ showNat (i + 1) ++ ": " ++ entry ++ "\n")

/-- `CommandPrompt::showHistory`: the text it prints. -/
def showHistory (self : CommandPrompt) : Str :=
  historyLoop self.history 0 "\n=== Command History ===\n" ++ "========================\n\n"

/-- `CommandPrompt::createAlias`: the alias table afterwards and the text
printed; `none` when a string operation throws. -/
def createAlias (aliases : AliasMap) (aliasCmd : Str) : Option (AliasMap × Str) :=
  let eqPos := find aliasCmd '='
  if eqPos = npos then some (aliases, "Usage: alias name=command\n")
  else do
    let name ← substr2 aliasCmd 0 eqPos
    let command ← substr aliasCmd (sizeAdd eqPos 1)
    let name ← erase name (sizeAdd (find_last_not_of name " \t") 1)
    let name ← erase2 name 0 (find_first_not_of name " \t")
    let command ← erase command (sizeAdd (find_last_not_of command " \t") 1)
    let command ← erase2 command 0 (find_first_not_of command " \t")
    some (mapAssign aliases name command,
      "Alias created: " ++ name ++ " -> " ++ command ++ "\n")

/-- The loop of `showAliases` over the entries of the table. -/
def aliasLoop : AliasMap → Str → Str
  | [], out => out
  | pair :: rest, out => aliasLoop rest (out ++ pair.1 ++ " -> " ++ pair.2 ++ "\n")

/-- `CommandPrompt::showAliases`: the text it prints. -/
def showAliases (self : CommandPrompt) : Str :=
  if self.aliases.isEmpty then "No aliases defined.\n"
  else aliasLoop self.aliases "\n=== Aliases ===\n" ++ "===============\n\n"

/-- `CommandPrompt::getDirectoryName`. -/
def getDirectoryName (path : Str) : Option Str :=
  let pos := find_last_of path ['/', Char.ofNat 92]
  if pos = npos then some path else substr path (sizeAdd pos 1)

/-- `CommandPrompt::resolveAlias`. -/
def resolveAlias (aliases : AliasMap) (command : Str) : Str :=
  match mapFind aliases command with
  | some value => value
  | none => command

/-- The loop of `echoText`, from index `i`. -/
def echoLoop : List Str → Nat → Str → Str
  | [], _, out => out
  | arg :: rest, i, out =>
    let out := if i > 1 then out ++ " " else out
    echoLoop rest (i + 1) (out ++ arg)

/-- `CommandPrompt::echoText`: the text it prints. -/
def echoText (args : List Str) : Str :=
  echoLoop (args.drop 1) 1 [] ++ "\n"

/-- The constructor `CommandPrompt()`: the object and the banner. -/
def CommandPrompt.new {W : Type} (h : Host W) (w : W) : CommandPrompt × Str :=
  (updateCurrentDir h ⟨[], [], []⟩ w,
    "=== Custom C++ Command Prompt ===\n" ++
    "Type " ++ [Char.ofNat 39] ++ "help" ++ [Char.ofNat 39] ++ " for available commands.\n" ++
    "Type " ++ [Char.ofNat 39] ++ "exit" ++ [Char.ofNat 39] ++ " or " ++
      [Char.ofNat 39] ++ "quit" ++ [Char.ofNat 39] ++ " to leave.\n\n")

/-- How one pass through the body of the loop of `run` leaves it: on to the
next prompt, out of the loop through `break`, or out through an exception. -/
inductive Flow where
  | next
  | done
  | thrown
deriving DecidableEq

/-- What one pass through the body of the loop leaves behind. -/
structure Step (W : Type) where
  /-- How the pass left the body. -/
  flow : Flow
  /-- The object afterwards. -/
  self : CommandPrompt
  /-- The system afterwards. -/
  world : W
  /-- The text printed. -/
  out : Str
  /-- The strings handed to `system`, in order. -/
  calls : List Str

/-- The branches of the chain of comparisons in `run`, in source order; the
last stands for the final `else`. -/
inductive Branch where
  | exit
  | help
  | clear
  | pwd
  | cd
  | ls
  | history
  | alias
  | aliases
  | echo
  | ipconfig
  | system
deriving DecidableEq

/-- The conditions of the chain of comparisons in `run`: the branch taken for
the command name `cmd`. -/
def selectBranch (cmd : Str) : Branch :=
  if cmd = ("exit" : Str) ∨ cmd = ("quit" : Str) then Branch.exit
  else if cmd = ("help" : Str) then Branch.help
  else if cmd = ("clear" : Str) ∨ cmd = ("cls" : Str) then Branch.clear
  else if cmd = ("pwd" : Str) then Branch.pwd
  else if cmd = ("cd" : Str) then Branch.cd
  else if cmd = ("ls" : Str) ∨ cmd = ("dir" : Str) then Branch.ls
  else if cmd = ("history" : Str) then Branch.history
  else if cmd = ("alias" : Str) then Branch.alias
  else if cmd = ("aliases" : Str) then Branch.aliases
  else if cmd = ("echo" : Str) then Branch.echo
  else if cmd = ("ipconfig" : Str) then Branch.ipconfig
  else Branch.system

/-- The bodies of the chain of comparisons in `run`, with `args` the tokens
after alias resolution and `input` the line as read. -/
def runBranch {W : Type} (h : Host W) (self : CommandPrompt) (w : W) (input : Str)
    (args : List Str) : Branch → Step W
  | Branch.exit => ⟨Flow.done, self, w, "Goodbye!\n", []⟩
  | Branch.help => ⟨Flow.next, self, w, showHelp, []⟩
  | Branch.clear => ⟨Flow.next, self, (clearScreen h w).1, [], (clearScreen h w).2⟩
  | Branch.pwd => ⟨Flow.next, self, w, self.currentDir ++ "\n", []⟩
  | Branch.cd =>
    if args.length > 1 then
      ⟨Flow.next, (changeDirectory h self w (args.getD 1 [])).1,
        (changeDirectory h self w (args.getD 1 [])).2.1,
        (changeDirectory h self w (args.getD 1 [])).2.2, []⟩
    else
      ⟨Flow.next, (changeDirectory h self w []).1, (changeDirectory h self w []).2.1,
        (changeDirectory h self w []).2.2, []⟩
  | Branch.ls => ⟨Flow.next, self, w, listDirectory h self w, []⟩
  | Branch.history => ⟨Flow.next, self, w, showHistory self, []⟩
  | Branch.alias =>
    if args.length > 1 then
      match substr input (sizeAdd (find input ' ') 1) with
      | none => ⟨Flow.thrown, self, w, [], []⟩
      | some aliasCmd =>
        match createAlias self.aliases aliasCmd with
        | none => ⟨Flow.thrown, self, w, [], []⟩
        | some r => ⟨Flow.next, ⟨self.history, self.currentDir, r.1⟩, w, r.2, []⟩
    else
      ⟨Flow.next, self, w, "Usage: alias name=command\n", []⟩
  | Branch.aliases => ⟨Flow.next, self, w, showAliases self, []⟩
  | Branch.echo => ⟨Flow.next, self, w, echoText args, []⟩
  | Branch.ipconfig => ⟨Flow.next, self, w, displayIpConfig h w, []⟩
  | Branch.system =>
    ⟨Flow.next, self, (executeSystemCommand h w args).1,
      (executeSystemCommand h w args).2.1, (executeSystemCommand h w args).2.2⟩

/-- The chain of comparisons of `run` on the command name `cmd`. -/
def dispatch {W : Type} (h : Host W) (self : CommandPrompt) (w : W) (input : Str)
    (args : List Str) (cmd : Str) : Step W :=
  runBranch h self w input args (selectBranch cmd)

/-- The body of the loop of `run` once `getline` has delivered `input`. -/
def execLine {W : Type} (h : Host W) (self : CommandPrompt) (w : W) (input : Str) : Step W :=
  if input.isEmpty then ⟨Flow.next, self, w, [], []⟩
  else
    let self := { self with history := self.history ++ [input] }
    match parseCommand input with
    | [] => ⟨Flow.next, self, w, [], []⟩
    | arg0 :: rest =>
      let args := resolveAlias self.aliases arg0 :: rest
      let cmd := (resolveAlias self.aliases arg0).map tolower
      dispatch h self w input args cmd

/-- The value of the variable `cmd` of `run` for the line `input`: the first
token after alias resolution, lower-cased; `none` when the line has no token. -/
def commandName (aliases : AliasMap) (input : Str) : Option Str :=
  match parseCommand input with
  | [] => none
  | arg0 :: _ => some ((resolveAlias aliases arg0).map tolower)

/-- How `run` returned: `getline` failed, a line dispatched to `exit` or
`quit`, or an exception left it. -/
inductive Ending where
  | eof
  | exit
  | thrown
deriving DecidableEq

/-- What `run` leaves behind. -/
structure Session (W : Type) where
  /-- How the loop was left. -/
  ending : Ending
  /-- The object afterwards. -/
  self : CommandPrompt
  /-- The system afterwards. -/
  world : W
  /-- The text printed. -/
  out : Str
  /-- The strings handed to `system`, in order. -/
  calls : List Str

/-- `CommandPrompt::run` on the lines standard input still holds. The prompt
is printed before each `getline`, the last time before the one that fails. -/
def run {W : Type} (h : Host W) : CommandPrompt → W → List Str → Session W
  | self, w, [] =>
    match getDirectoryName self.currentDir with
    | none => ⟨Ending.thrown, self, w, "[", []⟩
    | some dir => ⟨Ending.eof, self, w, "[" ++ dir ++ "]$ ", []⟩
  | self, w, input :: rest =>
    match getDirectoryName self.currentDir with
    | none => ⟨Ending.thrown, self, w, "[", []⟩
    | some dir =>
      match (execLine h self w input).flow with
      | Flow.done =>
        ⟨Ending.exit, (execLine h self w input).self, (execLine h self w input).world,
          "[" ++ dir ++ "]$ " ++ (execLine h self w input).out, (execLine h self w input).calls⟩
      | Flow.thrown =>
        ⟨Ending.thrown, (execLine h self w input).self, (execLine h self w input).world,
          "[" ++ dir ++ "]$ " ++ (execLine h self w input).out, (execLine h self w input).calls⟩
      | Flow.next =>
        ⟨(run h (execLine h self w input).self (execLine h self w input).world rest).ending,
          (run h (execLine h self w input).self (execLine h self w input).world rest).self,
          (run h (execLine h self w input).self (execLine h self w input).world rest).world,
          "[" ++ dir ++ "]$ " ++ (execLine h self w input).out ++
            (run h (execLine h self w input).self (execLine h self w input).world rest).out,
          (execLine h self w input).calls ++
            (run h (execLine h self w input).self (execLine h self w input).world rest).calls⟩

/-- The function `main`: a `CommandPrompt` is constructed, which prints the
banner, and `run` on the lines of standard input. -/
def session {W : Type} (h : Host W) (w : W) (lines : List Str) : Session W :=
  ⟨(run h (CommandPrompt.new h w).1 w lines).ending,
    (run h (CommandPrompt.new h w).1 w lines).self,
    (run h (CommandPrompt.new h w).1 w lines).world,
    (CommandPrompt.new h w).2 ++ (run h (CommandPrompt.new h w).1 w lines).out,
    (run h (CommandPrompt.new h w).1 w lines).calls⟩

/-- The exit status of `main`. -/
def exitStatus {W : Type} (h : Host W) (w : W) (lines : List Str) : Nat :=
  if (session h w lines).ending = Ending.thrown then 1 else 0

/-! ## A small host to evaluate the program on -/

/-- A host state: the working directory and the directories that exist. -/
structure SimWorld where
  /-- The working directory of the process. -/
  cwd : Str
  /-- The directories `chdir` accepts. -/
  dirs : List Str
deriving DecidableEq

/-- A host over `SimWorld`: `system` succeeds on `true` only, and the
interface list has one active interface and two loopback interfaces. -/
def simHost : Host SimWorld where
  getcwd := fun w => some w.cwd
  chdir := fun path w => if path ∈ w.dirs then (true, { w with cwd := path }) else (false, w)
  getenvHome := fun _ => some ("/home/user" : Str)
  system := fun command w => (if command = ("true" : Str) then 0 else 32512, w)
  opendir := fun path w => if path ∈ w.dirs then some [".", "..", "src", "README"] else none
  stat := fun path _ => if path = ("/home/user/src" : Str) then some true else some false
  getifaddrs := fun _ => some
    [⟨"eth0", some (2, "10.0.0.5"), "255.255.255.0", true, false⟩,
     ⟨"lo", some (2, "127.0.0.1"), "255.0.0.0", true, true⟩,
     ⟨"lo:1", some (2, "127.0.0.2"), "255.0.0.0", true, true⟩]

/-- The host state the examples start from. -/
def simWorld : SimWorld := ⟨"/home/user", ["/", "/home/user", "/tmp"]⟩

/-! ## Notions used in the statements -/

/-- The leading and trailing trimming of `createAlias`, which always returns. -/
def trimmed (s : Str) : Str :=
  (s.take (sizeAdd (find_last_not_of s " \t") 1)).drop
    (find_first_not_of (s.take (sizeAdd (find_last_not_of s " \t") 1)) " \t")

/-- The text `run` hands to `createAlias`: the line from just after its first
space character on, or the whole line when it has no space character. -/
def aliasArg (input : Str) : Str := input.drop (sizeAdd (find input ' ') 1)

/-- The name `createAlias` stores for the argument text `aliasCmd`. -/
def aliasName (aliasCmd : Str) : Str := trimmed (aliasCmd.take (find aliasCmd '='))

/-- The command `createAlias` stores for the argument text `aliasCmd`. -/
def aliasValue (aliasCmd : Str) : Str :=
  trimmed (aliasCmd.drop (sizeAdd (find aliasCmd '=') 1))

/-- The command names `run` compares against, in the order of the chain. -/
def builtinNames : List Str :=
  ["exit", "quit", "help", "clear", "cls", "pwd", "cd", "ls", "dir", "history", "alias",
    "aliases", "echo", "ipconfig"]

/-- Whether `c` is the letter `d` in either case, for a lower-case letter `d`;
any other `d` is matched by itself only. -/
def sameLetter (c d : Char) : Bool :=
  c = d || (97 ≤ d.toNat && d.toNat ≤ 122 && c.toNat + 32 = d.toNat)

/-- Whether `s` spells `name` in some mix of upper- and lower-case letters. -/
def isSpelling : Str → Str → Bool
  | [], [] => true
  | c :: s, d :: name => sameLetter c d && isSpelling s name
  | _, _ => false

/-- The tokens joined with single spaces. -/
def spaceJoined : List Str → Str
  | [] => []
  | [a] => a
  | a :: b :: rest => a ++ ' ' :: spaceJoined (b :: rest)

/-- No key of the alias table contains an equals sign. -/
def KeysWithoutEq (aliases : AliasMap) : Prop := ∀ p ∈ aliases, '=' ∉ p.1

/-- The block of the report for one record that is not loopback-flagged. -/
def ethernetBlock (iface : NetworkInterface) : Str :=
  ("Ethernet adapter " : Str) ++ iface.name ++ (":\n" : Str) ++
  ("   Connection-specific DNS Suffix  . :\n" : Str) ++
  ("   Link-local IPv6 Address . . . . . : (Not available)\n" : Str) ++
  ("   IPv4 Address. . . . . . . . . . . : " : Str) ++ iface.ipAddress ++ ("\n" : Str) ++
  ("   Subnet Mask . . . . . . . . . . . : " : Str) ++ iface.subnetMask ++ ("\n" : Str) ++
  (if iface.gateway.isEmpty then []
    else ("   Default Gateway . . . . . . . . . : " : Str) ++ iface.gateway ++ ("\n" : Str)) ++
  (if iface.macAddress.isEmpty then []
    else ("   Physical Address. . . . . . . . . : " : Str) ++ iface.macAddress ++ ("\n" : Str)) ++
  ("\n" : Str)

/-- The block of the report for a loopback-flagged record. -/
def tunnelBlock (iface : NetworkInterface) : Str :=
  ("Tunnel adapter " : Str) ++ iface.name ++ (":\n" : Str) ++
  ("   IPv4 Address. . . . . . . . . . . : " : Str) ++ iface.ipAddress ++ ("\n" : Str) ++
  ("   Subnet Mask . . . . . . . . . . . : " : Str) ++ iface.subnetMask ++ ("\n" : Str) ++
  ("\n" : Str)

/-- The tunnel part of the report: the block of the first loopback-flagged
record, if there is one. -/
def tunnelPart (interfaces : List NetworkInterface) : Str :=
  match interfaces.find? (fun i => i.isLoopback) with
  | some lo => tunnelBlock lo
  | none => []

/-- The first word of a text: its part before the first whitespace character. -/
def firstWord (value : Str) : Str := value.takeWhile (fun c => !isspace c)

/-- Whether `c` is a space or a horizontal tab. -/
def isBlank (c : Char) : Bool := (" \t" : Str).contains c

/-- The text without its leading and trailing spaces and horizontal tabs. -/
def trimBlank (s : Str) : Str := (s.rdropWhile isBlank).dropWhile isBlank

/-! ## Facts about the string operations -/

theorem sizeAdd_one_le {a n : Nat} (h : a < n) : sizeAdd a 1 ≤ n :=
  le_trans (Nat.mod_le _ _) h

theorem sizeAdd_npos : sizeAdd npos 1 = 0 := by decide

theorem find_eq_npos_or_lt (s : Str) (c : Char) : find s c = npos ∨ find s c < s.length := by
  unfold find
  split
  · right; assumption
  · left; rfl

theorem find_last_of_eq_npos_or_lt (s set : Str) :
    find_last_of s set = npos ∨ find_last_of s set < s.length := by
  unfold find_last_of
  split
  · right; omega
  · left; rfl

theorem find_last_not_of_eq_npos_or_lt (s set : Str) :
    find_last_not_of s set = npos ∨ find_last_not_of s set < s.length := by
  unfold find_last_not_of
  split
  · right; omega
  · left; rfl

/-- Neither search result plus one, on `size_t`, lies beyond the end. -/
theorem sizeAdd_search_le {p n : Nat} (h : p = npos ∨ p < n) : sizeAdd p 1 ≤ n := by
  rcases h with h | h
  · rw [h, sizeAdd_npos]; exact Nat.zero_le _
  · exact sizeAdd_one_le h

theorem substr_eq_drop {s : Str} {pos : Nat} (h : pos ≤ s.length) :
    substr s pos = some (s.drop pos) := by
  simp [substr, h]

theorem erase_eq_take {s : Str} {pos : Nat} (h : pos ≤ s.length) :
    erase s pos = some (s.take pos) := by
  simp [erase, h]

theorem erase2_zero (s : Str) (n : Nat) : erase2 s 0 n = some (s.drop n) := by
  simp [erase2]

theorem substr2_zero (s : Str) (n : Nat) : substr2 s 0 n = some (s.take n) := by
  simp [substr2]

/-- The prompt never throws: `getDirectoryName` always returns. -/
theorem getDirectoryName_isSome (path : Str) : ∃ dir, getDirectoryName path = some dir := by
  unfold getDirectoryName
  by_cases hp : find_last_of path ['/', Char.ofNat 92] = npos
  · exact ⟨path, by simp [hp]⟩
  · have hle := sizeAdd_search_le (find_last_of_eq_npos_or_lt path ['/', Char.ofNat 92])
    exact ⟨path.drop (sizeAdd (find_last_of path ['/', Char.ofNat 92]) 1),
      by simp [hp, substr_eq_drop hle]⟩

/-- The argument text of the `alias` branch is a suffix of the line. -/
theorem substr_after_space (input : Str) :
    substr input (sizeAdd (find input ' ') 1) =
      some (input.drop (sizeAdd (find input ' ') 1)) :=
  substr_eq_drop (sizeAdd_search_le (find_eq_npos_or_lt input ' '))

/-- What `createAlias` computes: it never throws; without an equals sign it
prints the usage line, otherwise it assigns the trimmed parts. -/
theorem createAlias_eq (aliases : AliasMap) (aliasCmd : Str) :
    createAlias aliases aliasCmd =
      if find aliasCmd '=' = npos then some (aliases, ("Usage: alias name=command\n" : Str))
      else some (mapAssign aliases
          (trimmed (aliasCmd.take (find aliasCmd '=')))
          (trimmed (aliasCmd.drop (sizeAdd (find aliasCmd '=') 1))),
        ("Alias created: " : Str) ++ trimmed (aliasCmd.take (find aliasCmd '=')) ++ (" -> " : Str) ++
          trimmed (aliasCmd.drop (sizeAdd (find aliasCmd '=') 1)) ++ ("\n" : Str)) := by
  unfold createAlias
  by_cases hp : find aliasCmd '=' = npos
  · simp [hp]
  · have h1 := sizeAdd_search_le (find_eq_npos_or_lt aliasCmd '=')
    have h2 : ∀ s set : Str, erase s (sizeAdd (find_last_not_of s set) 1) =
        some (s.take (sizeAdd (find_last_not_of s set) 1)) := fun s set =>
      erase_eq_take (sizeAdd_search_le (find_last_not_of_eq_npos_or_lt s set))
    simp [hp, substr2_zero, substr_eq_drop h1, h2, erase2_zero, trimmed]

/-! ## What a pass through the loop leaves untouched -/

theorem updateCurrentDir_history {W : Type} (h : Host W) (self : CommandPrompt) (w : W) :
    (updateCurrentDir h self w).history = self.history := by
  unfold updateCurrentDir
  split <;> rfl

theorem updateCurrentDir_aliases {W : Type} (h : Host W) (self : CommandPrompt) (w : W) :
    (updateCurrentDir h self w).aliases = self.aliases := by
  unfold updateCurrentDir
  split <;> rfl

theorem changeDirectory_history {W : Type} (h : Host W) (self : CommandPrompt) (w : W)
    (path : Str) : (changeDirectory h self w path).1.history = self.history := by
  unfold changeDirectory
  split_ifs
  · split
    · split_ifs <;> simp [updateCurrentDir_history]
    · rfl
  · simp [updateCurrentDir_history]
  · rfl

theorem changeDirectory_aliases {W : Type} (h : Host W) (self : CommandPrompt) (w : W)
    (path : Str) : (changeDirectory h self w path).1.aliases = self.aliases := by
  unfold changeDirectory
  split_ifs
  · split
    · split_ifs <;> simp [updateCurrentDir_aliases]
    · rfl
  · simp [updateCurrentDir_aliases]
  · rfl

/-- The `alias` branch, with the string operations resolved. -/
theorem runBranch_alias {W : Type} (h : Host W) (self : CommandPrompt) (w : W) (input : Str)
    (args : List Str) :
    runBranch h self w input args Branch.alias =
      if args.length > 1 then
        if find (aliasArg input) '=' = npos then
          ⟨Flow.next, self, w, ("Usage: alias name=command\n" : Str), []⟩
        else
          ⟨Flow.next,
            ⟨self.history, self.currentDir,
              mapAssign self.aliases (aliasName (aliasArg input)) (aliasValue (aliasArg input))⟩,
            w,
            ("Alias created: " : Str) ++ aliasName (aliasArg input) ++ (" -> " : Str) ++
              aliasValue (aliasArg input) ++ ("\n" : Str),
            []⟩
      else ⟨Flow.next, self, w, ("Usage: alias name=command\n" : Str), []⟩ := by
  unfold runBranch
  simp only [substr_after_space, createAlias_eq, aliasArg, aliasName, aliasValue]
  split_ifs <;> rfl

/-- Only the `exit` branch leaves the loop, and no branch throws. -/
theorem runBranch_flow {W : Type} (h : Host W) (self : CommandPrompt) (w : W)
    (input : Str) (args : List Str) (b : Branch) :
    (runBranch h self w input args b).flow =
      if b = Branch.exit then Flow.done else Flow.next := by
  cases b <;> first
    | rfl
    | (rw [runBranch_alias, if_neg (show ¬ Branch.alias = Branch.exit by decide)]
       split_ifs <;> rfl)
    | (unfold runBranch
       rw [if_neg (show ¬ Branch.cd = Branch.exit by decide)]
       split_ifs <;> rfl)

/-- No branch touches the history. -/
theorem runBranch_history {W : Type} (h : Host W) (self : CommandPrompt) (w : W)
    (input : Str) (args : List Str) (b : Branch) :
    (runBranch h self w input args b).self.history = self.history := by
  cases b <;> first
    | rfl
    | (rw [runBranch_alias]; split_ifs <;> rfl)
    | (unfold runBranch; split_ifs <;> exact changeDirectory_history _ _ _ _)

theorem dispatch_flow_ne_thrown {W : Type} (h : Host W) (self : CommandPrompt) (w : W)
    (input : Str) (args : List Str) (cmd : Str) :
    (dispatch h self w input args cmd).flow ≠ Flow.thrown := by
  unfold dispatch
  rw [runBranch_flow]
  split_ifs <;> exact fun hh => Flow.noConfusion hh

theorem dispatch_history {W : Type} (h : Host W) (self : CommandPrompt) (w : W)
    (input : Str) (args : List Str) (cmd : Str) :
    (dispatch h self w input args cmd).self.history = self.history :=
  runBranch_history _ _ _ _ _ _

/-- The line is appended to the history exactly when it is not empty. -/
theorem execLine_history {W : Type} (h : Host W) (self : CommandPrompt) (w : W) (input : Str) :
    (execLine h self w input).self.history =
      if input = [] then self.history else self.history ++ [input] := by
  unfold execLine
  by_cases hi : input = []
  · simp [hi]
  · simp only [List.isEmpty_iff, hi, if_false]
    split
    · rfl
    · simp [dispatch_history]

theorem execLine_flow_ne_thrown {W : Type} (h : Host W) (self : CommandPrompt) (w : W)
    (input : Str) : (execLine h self w input).flow ≠ Flow.thrown := by
  unfold execLine
  split_ifs
  · exact fun hh => Flow.noConfusion hh
  · split
    · exact fun hh => Flow.noConfusion hh
    · exact dispatch_flow_ne_thrown _ _ _ _ _ _

/-! ## The loop -/

/-- The loop never ends through an exception. -/
theorem run_ending_ne_thrown {W : Type} (h : Host W) (lines : List Str) :
    ∀ (self : CommandPrompt) (w : W), (run h self w lines).ending ≠ Ending.thrown := by
  induction lines with
  | nil =>
    intro self w
    obtain ⟨dir, hd⟩ := getDirectoryName_isSome self.currentDir
    simp only [run, hd]
    exact fun hh => Ending.noConfusion hh
  | cons input rest ih =>
    intro self w
    obtain ⟨dir, hd⟩ := getDirectoryName_isSome self.currentDir
    cases hf : (execLine h self w input).flow with
    | next =>
      simp only [run, hd, hf]
      exact ih _ _
    | done =>
      simp only [run, hd, hf]
      exact fun hh => Ending.noConfusion hh
    | thrown => exact absurd hf (execLine_flow_ne_thrown h self w input)

/-- When the loop does not end through `exit` or `quit`, it appends to the
history the lines that are not empty, in order. -/
theorem run_history {W : Type} (h : Host W) (lines : List Str) :
    ∀ (self : CommandPrompt) (w : W), (run h self w lines).ending ≠ Ending.exit →
      (run h self w lines).self.history =
        self.history ++ lines.filter (fun l => decide (l ≠ [])) := by
  induction lines with
  | nil =>
    intro self w _
    obtain ⟨dir, hd⟩ := getDirectoryName_isSome self.currentDir
    simp only [run, hd, List.filter_nil, List.append_nil]
  | cons input rest ih =>
    intro self w hne
    obtain ⟨dir, hd⟩ := getDirectoryName_isSome self.currentDir
    cases hf : (execLine h self w input).flow with
    | next =>
      simp only [run, hd, hf] at hne ⊢
      rw [ih _ _ hne, execLine_history]
      by_cases hi : input = []
      · simp [hi]
      · simp [hi]
    | done =>
      simp only [run, hd, hf] at hne
      exact absurd rfl hne
    | thrown => exact absurd hf (execLine_flow_ne_thrown h self w input)

/-! ## Command names -/

/-- A name outside the chain of comparisons reaches the final `else`. -/
theorem selectBranch_of_not_builtin {cmd : Str} (hcmd : cmd ∉ builtinNames) :
    selectBranch cmd = Branch.system := by
  simp only [builtinNames, List.mem_cons, List.mem_singleton, List.not_mem_nil, or_false,
    not_or] at hcmd
  obtain ⟨h1, h2, h3, h4, h5, h6, h7, h8, h9, h10, h11, h12, h13, h14⟩ := hcmd
  simp only [selectBranch, h1, h2, h3, h4, h5, h6, h7, h8, h9, h10, h11, h12, h13, h14,
    or_self, if_false]

/-- Every name of the chain is handled by `run` itself. -/
theorem selectBranch_of_builtin {cmd : Str} (hcmd : cmd ∈ builtinNames) :
    selectBranch cmd ≠ Branch.system := by
  simp only [builtinNames, List.mem_cons, List.mem_singleton, List.not_mem_nil, or_false] at hcmd
  rcases hcmd with h | h | h | h | h | h | h | h | h | h | h | h | h | h <;>
    (subst h; decide)

theorem ite_branch_ne {c : Prop} [Decidable c] {a b x : Branch} (ha : a ≠ x) (hb : b ≠ x) :
    (if c then a else b) ≠ x := by
  split_ifs <;> assumption

/-- The `exit` branch is taken by the names `exit` and `quit` only. -/
theorem selectBranch_eq_exit_iff (cmd : Str) :
    selectBranch cmd = Branch.exit ↔ cmd = ("exit" : Str) ∨ cmd = ("quit" : Str) := by
  unfold selectBranch
  by_cases hc : cmd = ("exit" : Str) ∨ cmd = ("quit" : Str)
  · simp only [hc, if_true]
  · simp only [hc, if_false, iff_false]
    repeat first
      | exact (by decide)
      | apply ite_branch_ne

theorem tolower_of_not_upper {c : Char} (hc : ¬ (65 ≤ c.toNat ∧ c.toNat ≤ 90)) :
    tolower c = c := by
  simp only [tolower, hc, if_false]

theorem tolower_of_isspace {c : Char} (hc : isspace c = true) : tolower c = c := by
  apply tolower_of_not_upper
  simp only [isspace, Bool.or_eq_true, decide_eq_true_eq, Bool.and_eq_true] at hc
  omega

/-- No command name contains a whitespace character. -/
theorem builtinNames_no_space : ∀ name ∈ builtinNames, ∀ c ∈ name, isspace c = false := by
  decide

/-- Every command name consists of lower-case letters. -/
theorem builtinNames_lower :
    ∀ name ∈ builtinNames, ∀ c ∈ name, 97 ≤ c.toNat ∧ c.toNat ≤ 122 := by
  decide

/-- Lower-casing keeps a text with a whitespace character apart from every
command name. -/
theorem lower_not_builtin_of_space {value : Str} (hsp : ∃ c ∈ value, isspace c = true) :
    value.map tolower ∉ builtinNames := by
  obtain ⟨c, hc, hs⟩ := hsp
  intro hmem
  have h1 : c ∈ value.map tolower := by
    rw [List.mem_map]
    exact ⟨c, hc, tolower_of_isspace hs⟩
  have h2 := builtinNames_no_space _ hmem c h1
  rw [hs] at h2
  exact Bool.noConfusion h2

theorem tolower_of_sameLetter {c d : Char} (hd : 97 ≤ d.toNat ∧ d.toNat ≤ 122)
    (hcd : sameLetter c d = true) : tolower c = d := by
  simp only [sameLetter, Bool.or_eq_true, decide_eq_true_eq, Bool.and_eq_true] at hcd
  rcases hcd with h | ⟨_, h⟩
  · subst h
    exact tolower_of_not_upper (by omega)
  · have hup : 65 ≤ c.toNat ∧ c.toNat ≤ 90 := by omega
    simp only [tolower, hup, and_self, if_true, h]
    exact Char.ofNat_toNat d

/-- Lower-casing a spelling of a lower-case name gives the name. -/
theorem map_tolower_of_isSpelling : ∀ (s name : Str),
    (∀ d ∈ name, 97 ≤ d.toNat ∧ d.toNat ≤ 122) → isSpelling s name = true →
    s.map tolower = name
  | [], [], _, _ => rfl
  | [], _ :: _, _, h => by simp [isSpelling] at h
  | _ :: _, [], _, h => by simp [isSpelling] at h
  | c :: s, d :: name, hl, h => by
    simp only [isSpelling, Bool.and_eq_true] at h
    simp only [List.map_cons]
    rw [tolower_of_sameLetter (hl d (List.mem_cons_self _ _)) h.1,
      map_tolower_of_isSpelling s name (fun e he => hl e (List.mem_cons_of_mem _ he)) h.2]

/-! ## Tokens -/

/-- No token is empty. -/
theorem parseLoop_ne_nil : ∀ (s token : Str), ∀ t ∈ parseLoop s token, t ≠ []
  | [], token, t, ht => by
    unfold parseLoop at ht
    split_ifs at ht with he
    · simp at ht
    · simp only [List.mem_singleton] at ht
      subst ht
      simpa using he
  | c :: rest, token, t, ht => by
    unfold parseLoop at ht
    split_ifs at ht with hc he
    · exact parseLoop_ne_nil rest [] t ht
    · rcases List.mem_cons.mp ht with h | h
      · subst h
        simpa using he
      · exact parseLoop_ne_nil rest [] t h
    · exact parseLoop_ne_nil rest (token ++ [c]) t ht

theorem parseCommand_ne_nil (input : Str) : ∀ t ∈ parseCommand input, t ≠ [] :=
  parseLoop_ne_nil input []

/-- Every character of the line that is not whitespace lies in a token. -/
theorem parseLoop_covers (x : Char) (hx : isspace x = false) :
    ∀ (s token : Str), x ∈ token ∨ x ∈ s → ∃ t ∈ parseLoop s token, x ∈ t
  | [], token, hmem => by
    have hin : x ∈ token := by simpa using hmem
    have hne : token.isEmpty = false := by
      cases token with
      | nil => simp at hin
      | cons _ _ => rfl
    refine ⟨token, ?_, hin⟩
    simp [parseLoop, hne]
  | c :: rest, token, hmem => by
    unfold parseLoop
    by_cases hc : isspace c = true
    · have hxc : x ≠ c := by
        intro h
        rw [h, hc] at hx
        exact Bool.noConfusion hx
      rw [if_pos hc]
      by_cases he : token.isEmpty = true
      · rw [if_pos he]
        have hin : x ∈ rest := by
          rcases hmem with h | h
          · rw [List.isEmpty_iff] at he
            rw [he] at h
            simp at h
          · rcases List.mem_cons.mp h with h | h
            · exact absurd h hxc
            · exact h
        exact parseLoop_covers x hx rest [] (Or.inr hin)
      · rw [if_neg he]
        rcases hmem with h | h
        · exact ⟨token, List.mem_cons_self _ _, h⟩
        · rcases List.mem_cons.mp h with h | h
          · exact absurd h hxc
          · obtain ⟨t, ht, hxt⟩ := parseLoop_covers x hx rest [] (Or.inr h)
            exact ⟨t, List.mem_cons_of_mem _ ht, hxt⟩
    · rw [if_neg hc]
      apply parseLoop_covers x hx rest (token ++ [c])
      rcases hmem with h | h
      · exact Or.inl (List.mem_append_left _ h)
      · rcases List.mem_cons.mp h with h | h
        · exact Or.inl (by simp [h])
        · exact Or.inr h

theorem parseCommand_covers {x : Char} (hx : isspace x = false) {input : Str}
    (hmem : x ∈ input) : ∃ t ∈ parseCommand input, x ∈ t :=
  parseLoop_covers x hx input [] (Or.inr hmem)

/-! ## Joining -/

theorem joinLoop_succ : ∀ (args : List Str) (i : Nat) (command : Str),
    joinLoop args (i + 1) command =
      command ++ (args.map (fun a => ' ' :: a)).flatten
  | [], _, command => by simp [joinLoop]
  | a :: rest, i, command => by
    simp [joinLoop, joinLoop_succ rest]

theorem spaceJoined_cons : ∀ (a : Str) (rest : List Str),
    spaceJoined (a :: rest) = a ++ (rest.map (fun b => ' ' :: b)).flatten
  | a, [] => by simp [spaceJoined]
  | a, b :: rest => by
    simp [spaceJoined, spaceJoined_cons b rest]

/-- The loop of `executeSystemCommand` joins the tokens with single spaces. -/
theorem joinLoop_eq_spaceJoined (args : List Str) : joinLoop args 0 [] = spaceJoined args := by
  cases args with
  | nil => rfl
  | cons a rest => simp [joinLoop, joinLoop_succ, spaceJoined_cons]

theorem echoLoop_succ : ∀ (args : List Str) (i : Nat) (out : Str),
    echoLoop args (i + 2) out = out ++ (args.map (fun a => ' ' :: a)).flatten
  | [], _, out => by simp [echoLoop]
  | a :: rest, i, out => by
    simp [echoLoop, echoLoop_succ rest]

/-- The command `echo` prints its arguments joined with single spaces. -/
theorem echoText_eq (arg0 : Str) (rest : List Str) :
    echoText (arg0 :: rest) = spaceJoined rest ++ ("\n" : Str) := by
  cases rest with
  | nil => rfl
  | cons a rest => simp [echoText, echoLoop, echoLoop_succ, spaceJoined_cons]

/-! ## The alias table -/

theorem mapFind_mapAssign_self : ∀ (m : AliasMap) (key value : Str),
    mapFind (mapAssign m key value) key = some value
  | [], key, value => by simp [mapAssign, mapFind]
  | (k, v) :: m, key, value => by
    unfold mapAssign
    split_ifs with h1 h2
    · simp [mapFind]
    · simp [mapFind]
    · simp [mapFind, h1, mapFind_mapAssign_self m key value]

theorem mapFind_mapAssign_other : ∀ (m : AliasMap) (key value other : Str), other ≠ key →
    mapFind (mapAssign m key value) other = mapFind m other
  | [], key, value, other, hne => by simp [mapAssign, mapFind, Ne.symm hne]
  | (k, v) :: m, key, value, other, hne => by
    unfold mapAssign
    split_ifs with h1 h2
    · subst h1
      simp [mapFind, Ne.symm hne]
    · simp [mapFind, Ne.symm hne]
    · simp [mapFind, mapFind_mapAssign_other m key value other hne]

theorem mem_mapAssign : ∀ (m : AliasMap) (key value : Str) (p : Str × Str),
    p ∈ mapAssign m key value → p = (key, value) ∨ p ∈ m
  | [], key, value, p, hp => by
    simp only [mapAssign, List.mem_singleton] at hp
    exact Or.inl hp
  | (k, v) :: m, key, value, p, hp => by
    unfold mapAssign at hp
    split_ifs at hp with h1 h2
    · rcases List.mem_cons.mp hp with h | h
      · exact Or.inl h
      · exact Or.inr (List.mem_cons_of_mem _ h)
    · rcases List.mem_cons.mp hp with h | h
      · exact Or.inl h
      · exact Or.inr h
    · rcases List.mem_cons.mp hp with h | h
      · exact Or.inr (h ▸ List.mem_cons_self _ _)
      · rcases mem_mapAssign m key value p h with h | h
        · exact Or.inl h
        · exact Or.inr (List.mem_cons_of_mem _ h)

theorem mem_of_mapFind : ∀ (m : AliasMap) (key value : Str),
    mapFind m key = some value → (key, value) ∈ m
  | [], _, _, h => by simp [mapFind] at h
  | (k, v) :: m, key, value, h => by
    unfold mapFind at h
    split_ifs at h with h1
    · simp only [Option.some.injEq] at h
      subst h1 h
      exact List.mem_cons_self _ _
    · exact List.mem_cons_of_mem _ (mem_of_mapFind m key value h)

/-- The text before the first occurrence of `c` does not contain `c`. -/
theorem not_mem_take_indexOf (c : Char) : ∀ (s : Str), c ∉ s.take (s.indexOf c)
  | [] => by simp
  | x :: s => by
    by_cases hx : x = c
    · subst hx
      simp
    · rw [List.indexOf_cons_ne _ hx]
      simp only [List.take_succ_cons, List.mem_cons, not_or]
      exact ⟨Ne.symm hx, not_mem_take_indexOf c s⟩

theorem not_mem_take_find (c : Char) (s : Str) : c ∉ s.take (find s c) := by
  unfold find
  split_ifs with h
  · exact not_mem_take_indexOf c s
  · intro hmem
    have hin : c ∈ s := List.mem_of_mem_take hmem
    exact h (List.indexOf_lt_length.mpr hin)

theorem mem_of_mem_trimmed {c : Char} {s : Str} (h : c ∈ trimmed s) : c ∈ s :=
  List.mem_of_mem_take (List.mem_of_mem_drop h)

/-- The name `createAlias` stores never contains an equals sign. -/
theorem eq_not_mem_aliasName (aliasCmd : Str) : '=' ∉ aliasName aliasCmd :=
  fun h => not_mem_take_find '=' aliasCmd (mem_of_mem_trimmed h)

theorem runBranch_keys {W : Type} (h : Host W) (self : CommandPrompt) (w : W)
    (input : Str) (args : List Str) (b : Branch) (hk : KeysWithoutEq self.aliases) :
    KeysWithoutEq (runBranch h self w input args b).self.aliases := by
  cases b <;> first
    | (rw [runBranch_alias]
       split_ifs
       · exact hk
       · intro p hp
         have hp2 : p ∈ mapAssign self.aliases (aliasName (aliasArg input))
             (aliasValue (aliasArg input)) := hp
         rcases mem_mapAssign self.aliases (aliasName (aliasArg input))
             (aliasValue (aliasArg input)) p hp2 with hp1 | hp1
         · have hfst : p.1 = aliasName (aliasArg input) := by rw [hp1]
           rw [hfst]
           exact eq_not_mem_aliasName (aliasArg input)
         · exact hk p hp1
       · exact hk)
    | (unfold runBranch
       split_ifs
       · show KeysWithoutEq (changeDirectory h self w (args.getD 1 [])).1.aliases
         rw [changeDirectory_aliases]
         exact hk
       · show KeysWithoutEq (changeDirectory h self w []).1.aliases
         rw [changeDirectory_aliases]
         exact hk)
    | exact hk

theorem execLine_keys {W : Type} (h : Host W) (self : CommandPrompt) (w : W) (input : Str)
    (hk : KeysWithoutEq self.aliases) : KeysWithoutEq (execLine h self w input).self.aliases := by
  unfold execLine
  split_ifs
  · exact hk
  · split
    · exact hk
    · exact runBranch_keys h _ w input _ _ hk

theorem run_keys {W : Type} (h : Host W) (lines : List Str) :
    ∀ (self : CommandPrompt) (w : W), KeysWithoutEq self.aliases →
      KeysWithoutEq (run h self w lines).self.aliases := by
  induction lines with
  | nil =>
    intro self w hk
    unfold run
    split <;> exact hk
  | cons input rest ih =>
    intro self w hk
    have hstep := execLine_keys h self w input hk
    obtain ⟨dir, hd⟩ := getDirectoryName_isSome self.currentDir
    cases hf : (execLine h self w input).flow with
    | next =>
      simp only [run, hd, hf]
      exact ih _ _ hstep
    | done =>
      simp only [run, hd, hf]
      exact hstep
    | thrown =>
      simp only [run, hd, hf]
      exact hstep

/-- Throughout a session no key of the alias table contains an equals sign. -/
theorem session_keys {W : Type} (h : Host W) (w : W) (lines : List Str) :
    KeysWithoutEq (session h w lines).self.aliases := by
  show KeysWithoutEq (run h (CommandPrompt.new h w).1 w lines).self.aliases
  apply run_keys
  rw [show (CommandPrompt.new h w).1.aliases = [] from updateCurrentDir_aliases h _ w]
  intro p hp
  simp at hp

/-! ## The network report -/

theorem ethernetLoop_eq : ∀ (interfaces : List NetworkInterface) (out : Str),
    ethernetLoop interfaces out =
      out ++ ((interfaces.filter (fun i => !i.isLoopback)).map ethernetBlock).flatten
  | [], out => by simp [ethernetLoop]
  | iface :: rest, out => by
    unfold ethernetLoop
    by_cases hl : iface.isLoopback = true
    · simp only [hl, if_true, Bool.not_true, List.filter_cons_of_neg, Bool.false_eq_true,
        not_false_eq_true]
      exact ethernetLoop_eq rest out
    · have hl2 : iface.isLoopback = false := by simpa using hl
      rw [if_neg hl, ethernetLoop_eq rest]
      have hf : (iface :: rest).filter (fun i => !i.isLoopback) =
          iface :: rest.filter (fun i => !i.isLoopback) := by
        simp [List.filter_cons, hl2]
      rw [hf, List.map_cons, List.flatten_cons]
      cases hg : iface.gateway.isEmpty <;> cases hm : iface.macAddress.isEmpty <;>
        simp only [ethernetBlock, hg, hm, Bool.not_true, Bool.not_false, Bool.false_eq_true,
          if_true, if_false, List.append_assoc, List.append_nil, List.nil_append]

theorem tunnelLoop_eq : ∀ (interfaces : List NetworkInterface) (out : Str),
    tunnelLoop interfaces out = out ++ tunnelPart interfaces
  | [], out => by simp [tunnelLoop, tunnelPart]
  | iface :: rest, out => by
    unfold tunnelLoop
    by_cases hl : iface.isLoopback = true
    · simp only [hl, if_true, tunnelPart, List.find?_cons, tunnelBlock, List.append_assoc]
    · have hl2 : iface.isLoopback = false := by simpa using hl
      rw [if_neg hl, tunnelLoop_eq rest]
      simp only [tunnelPart, List.find?_cons, hl2]

/-! ## One pass through the loop, by tokens -/

theorem parseCommand_nil : parseCommand [] = [] := rfl

/-- A line with tokens is recorded and handed to the branch its resolved,
lower-cased first token selects. -/
theorem execLine_of_tokens {W : Type} (h : Host W) (self : CommandPrompt) (w : W)
    (input arg0 : Str) (rest : List Str) (htok : parseCommand input = arg0 :: rest) :
    execLine h self w input =
      runBranch h ⟨self.history ++ [input], self.currentDir, self.aliases⟩ w input
        (resolveAlias self.aliases arg0 :: rest)
        (selectBranch ((resolveAlias self.aliases arg0).map tolower)) := by
  have hne : input.isEmpty = false := by
    cases input with
    | nil => rw [parseCommand_nil] at htok; exact List.noConfusion htok
    | cons _ _ => rfl
  unfold execLine
  simp only [hne, Bool.false_eq_true, if_false, htok, dispatch]

theorem commandName_of_tokens (aliases : AliasMap) (input arg0 : Str) (rest : List Str)
    (htok : parseCommand input = arg0 :: rest) :
    commandName aliases input = some ((resolveAlias aliases arg0).map tolower) := by
  simp only [commandName, htok]

/-- A pass leaves the loop through `break` exactly when the command name of
the line is `exit` or `quit`. -/
theorem execLine_flow_done_iff {W : Type} (h : Host W) (self : CommandPrompt) (w : W)
    (input : Str) :
    (execLine h self w input).flow = Flow.done ↔
      (commandName self.aliases input = some ("exit" : Str) ∨
        commandName self.aliases input = some ("quit" : Str)) := by
  cases htok : parseCommand input with
  | nil =>
    have hflow : (execLine h self w input).flow = Flow.next := by
      unfold execLine
      split_ifs
      · rfl
      · simp only [htok]
    simp only [hflow, commandName, htok, reduceCtorEq, or_self]
  | cons arg0 rest =>
    rw [execLine_of_tokens h self w input arg0 rest htok, runBranch_flow,
      commandName_of_tokens _ _ _ _ htok]
    simp only [Option.some.injEq, ← selectBranch_eq_exit_iff]
    split_ifs with hb
    · simp only [hb]
    · simp only [hb, reduceCtorEq]

theorem run_next {W : Type} (h : Host W) (self : CommandPrompt) (w : W) (input : Str)
    (rest : List Str) (hf : (execLine h self w input).flow = Flow.next) :
    (run h self w (input :: rest)).ending =
        (run h (execLine h self w input).self (execLine h self w input).world rest).ending ∧
    (run h self w (input :: rest)).self =
        (run h (execLine h self w input).self (execLine h self w input).world rest).self ∧
    (run h self w (input :: rest)).world =
        (run h (execLine h self w input).self (execLine h self w input).world rest).world := by
  obtain ⟨dir, hd⟩ := getDirectoryName_isSome self.currentDir
  simp only [run, hd, hf, and_self]

/-- The loop ends through `exit` or `quit` only if some line, read in the
state the lines before it lead to, leaves its pass through `break`. -/
theorem run_exit_has_exit_line {W : Type} (h : Host W) (lines : List Str) :
    ∀ (self : CommandPrompt) (w : W), (run h self w lines).ending = Ending.exit →
      ∃ pre line suf, lines = pre ++ line :: suf ∧
        (run h self w pre).ending = Ending.eof ∧
        (execLine h (run h self w pre).self (run h self w pre).world line).flow = Flow.done := by
  induction lines with
  | nil =>
    intro self w hex
    obtain ⟨dir, hd⟩ := getDirectoryName_isSome self.currentDir
    simp only [run, hd, reduceCtorEq] at hex
  | cons input rest ih =>
    intro self w hex
    obtain ⟨dir, hd⟩ := getDirectoryName_isSome self.currentDir
    have hnil : run h self w [] = ⟨Ending.eof, self, w, ("[" : Str) ++ dir ++ ("]$ " : Str), []⟩ := by
      simp only [run, hd]
    cases hf : (execLine h self w input).flow with
    | done =>
      refine ⟨[], input, rest, rfl, ?_, ?_⟩
      · rw [hnil]
      · rw [hnil]
        exact hf
    | thrown => exact absurd hf (execLine_flow_ne_thrown h self w input)
    | next =>
      obtain ⟨he, hs, hw⟩ := run_next h self w input rest hf
      rw [he] at hex
      obtain ⟨pre, line, suf, hl, hpe, hpf⟩ := ih _ _ hex
      obtain ⟨he2, hs2, hw2⟩ := run_next h self w input pre hf
      refine ⟨input :: pre, line, suf, by rw [hl]; rfl, ?_, ?_⟩
      · rw [he2]
        exact hpe
      · rw [hs2, hw2]
        exact hpf

/-! ## The claims -/

/-- C1: when no line of the input dispatches to `exit` or `quit` (the loop
does not end through `break`), the history after the loop is the sequence of
the lines that are not the empty string, in input order and unmodified; its
length is the number of such lines and the empty line is not in it. -/
theorem history_is_nonempty_lines {W : Type} (h : Host W) (w : W) (lines : List Str)
    (hno : (session h w lines).ending ≠ Ending.exit) :
    (session h w lines).self.history = lines.filter (fun l => decide (l ≠ [])) ∧
    (session h w lines).self.history.length = lines.countP (fun l => decide (l ≠ [])) ∧
    ([] : Str) ∉ (session h w lines).self.history := by
  have hh : (session h w lines).self.history = lines.filter (fun l => decide (l ≠ [])) := by
    have hno1 : (run h (CommandPrompt.new h w).1 w lines).ending ≠ Ending.exit := hno
    have hr : (run h (CommandPrompt.new h w).1 w lines).self.history = _ :=
      run_history h lines (CommandPrompt.new h w).1 w hno1
    show (run h (CommandPrompt.new h w).1 w lines).self.history = _
    have h0 : (CommandPrompt.new h w).1.history = [] := updateCurrentDir_history h _ w
    rw [h0, List.nil_append] at hr
    exact hr
  refine ⟨hh, ?_, ?_⟩
  · rw [hh, List.countP_eq_length_filter]
  · rw [hh, List.mem_filter]
    rintro ⟨_, hne⟩
    simp at hne

/-- C1 on the lines `help`, the empty line, `pwd`. -/
theorem history_is_nonempty_lines_witness :
    (session simHost simWorld [("help" : Str), ("" : Str), ("pwd" : Str)]).ending ≠ Ending.exit ∧
    (session simHost simWorld [("help" : Str), ("" : Str), ("pwd" : Str)]).self.history =
      [("help" : Str), ("pwd" : Str)] :=
  ⟨by decide,
    (history_is_nonempty_lines simHost simWorld [("help" : Str), ("" : Str), ("pwd" : Str)]
      (by decide)).1.trans (by decide)⟩

/-- A text without a NUL byte is its own C string. -/
theorem c_str_of_not_mem {s : Str} (hs : Char.ofNat 0 ∉ s) : c_str s = s := by
  unfold c_str
  rw [List.takeWhile_eq_self_iff]
  intro c hc
  by_cases hz : c = Char.ofNat 0
  · exact absurd (hz ▸ hc) hs
  · simp [bne, hz]

/-- The C string of a text has no NUL byte and starts the text. -/
theorem c_str_spec (s : Str) : Char.ofNat 0 ∉ c_str s ∧ c_str s <+: s := by
  refine ⟨?_, List.takeWhile_prefix _⟩
  intro hmem
  have := List.mem_takeWhile_imp hmem
  simp [bne] at this

/-- The text `operator<<` prints for an `int` is its decimal representation. -/
theorem showInt_eq_repr (i : Int) : showInt i = (Int.repr i).toList := by
  cases i <;> rfl

/-- The final `else` of the chain: one call of `system` on the C string of the
joined tokens, and the exit-code line when the result is not zero. -/
theorem runBranch_system {W : Type} (h : Host W) (self : CommandPrompt) (w : W)
    (input arg0 : Str) (rest : List Str) :
    runBranch h self w input (arg0 :: rest) Branch.system =
      ⟨Flow.next, self, (h.system (c_str (spaceJoined (arg0 :: rest))) w).2,
        (if (h.system (c_str (spaceJoined (arg0 :: rest))) w).1 ≠ 0 then
          ("Command failed with exit code: " : Str) ++
            showInt (h.system (c_str (spaceJoined (arg0 :: rest))) w).1 ++ ("\n" : Str)
        else []),
        [c_str (spaceJoined (arg0 :: rest))]⟩ := by
  simp only [runBranch, executeSystemCommand, List.isEmpty_cons, Bool.false_eq_true, if_false,
    joinLoop_eq_spaceJoined]
  split_ifs <;> rfl

theorem resolveAlias_eq_getD (aliases : AliasMap) (command : Str) :
    resolveAlias aliases command = (mapFind aliases command).getD command := by
  unfold resolveAlias
  split <;> simp [*]

/-- C2, as stated, fails on a line with a NUL byte: the line `foo`, NUL,
`bar baz` has the tokens `foo`-NUL-`bar` and `baz` and no built-in name, and
the host interpreter is handed `foo`, not the tokens joined with a space. -/
theorem unknown_command_nul_counterexample :
    parseCommand ("foo\x00bar baz" : Str) = [("foo\x00bar" : Str), ("baz" : Str)] ∧
    commandName [] ("foo\x00bar baz" : Str) = some ("foo\x00bar" : Str) ∧
    ("foo\x00bar" : Str) ∉ builtinNames ∧
    (execLine simHost ⟨[], [], []⟩ simWorld ("foo\x00bar baz" : Str)).calls = [("foo" : Str)] ∧
    (execLine simHost ⟨[], [], []⟩ simWorld ("foo\x00bar baz" : Str)).calls ≠
      [spaceJoined [("foo\x00bar" : Str), ("baz" : Str)]] := by
  decide

/-- C2, amended: a line whose command name (the first token, replaced by its
table value when it is a key, lower-cased) is not a built-in name hands
exactly one string to the host interpreter: the C string of the tokens (the
first one so replaced, the others as typed) joined with single spaces, that
is the joined text up to its first NUL byte, and the joined text itself when
it has no NUL byte. The line `Command failed with exit code:` with the status
in decimal is printed exactly when the status is not zero, and nothing else
is printed. -/
theorem unknown_command_is_forwarded {W : Type} (h : Host W) (self : CommandPrompt) (w : W)
    (input arg0 : Str) (rest : List Str)
    (htok : parseCommand input = arg0 :: rest)
    (hnb : ((mapFind self.aliases arg0).getD arg0).map tolower ∉ builtinNames) :
    (execLine h self w input).calls =
      [c_str (spaceJoined ((mapFind self.aliases arg0).getD arg0 :: rest))] ∧
    (Char.ofNat 0 ∉ spaceJoined ((mapFind self.aliases arg0).getD arg0 :: rest) →
      (execLine h self w input).calls =
        [spaceJoined ((mapFind self.aliases arg0).getD arg0 :: rest)]) ∧
    (execLine h self w input).world =
      (h.system (c_str (spaceJoined ((mapFind self.aliases arg0).getD arg0 :: rest))) w).2 ∧
    (execLine h self w input).out =
      (if (h.system (c_str (spaceJoined ((mapFind self.aliases arg0).getD arg0 :: rest)))
          w).1 ≠ 0 then
        ("Command failed with exit code: " : Str) ++
          (Int.repr (h.system
            (c_str (spaceJoined ((mapFind self.aliases arg0).getD arg0 :: rest))) w).1).toList ++
          ("\n" : Str)
      else []) ∧
    (execLine h self w input).flow = Flow.next := by
  rw [← resolveAlias_eq_getD] at hnb ⊢
  rw [execLine_of_tokens h self w input arg0 rest htok, selectBranch_of_not_builtin hnb,
    runBranch_system, showInt_eq_repr]
  refine ⟨rfl, ?_, rfl, rfl, rfl⟩
  intro hz
  rw [c_str_of_not_mem hz]

/-- C2, amended, on the line `fb --x` with `fb` standing for `frobnicate`:
the host interpreter is handed `frobnicate --x`, and its status 32512 is
reported. -/
theorem unknown_command_is_forwarded_witness :
    (parseCommand ("fb --x" : Str) = [("fb" : Str), ("--x" : Str)] ∧
      ((mapFind [(("fb" : Str), ("frobnicate" : Str))] ("fb" : Str)).getD ("fb" : Str)).map
        tolower ∉ builtinNames) ∧
    (execLine simHost ⟨[], [], [(("fb" : Str), ("frobnicate" : Str))]⟩ simWorld
      ("fb --x" : Str)).calls = [("frobnicate --x" : Str)] ∧
    (execLine simHost ⟨[], [], [(("fb" : Str), ("frobnicate" : Str))]⟩ simWorld
      ("fb --x" : Str)).out = ("Command failed with exit code: 32512\n" : Str) :=
  ⟨⟨by decide, by decide⟩,
    (unknown_command_is_forwarded simHost ⟨[], [], [(("fb" : Str), ("frobnicate" : Str))]⟩
      simWorld ("fb --x" : Str) ("fb" : Str) [("--x" : Str)] (by decide) (by decide)).1.trans
      (by decide),
    (unknown_command_is_forwarded simHost ⟨[], [], [(("fb" : Str), ("frobnicate" : Str))]⟩
      simWorld ("fb --x" : Str) ("fb" : Str) [("--x" : Str)] (by decide)
      (by decide)).2.2.2.1.trans (by decide)⟩

/-- The line `frobnicate --x` is handed to the host interpreter as it is and
its status is reported; the line `true`, of status zero, prints nothing; a
negative status is printed with its sign. -/
theorem forwarding_examples :
    (execLine simHost ⟨[], [], []⟩ simWorld ("frobnicate --x" : Str)).calls =
      [("frobnicate --x" : Str)] ∧
    (execLine simHost ⟨[], [], []⟩ simWorld ("frobnicate --x" : Str)).out =
      ("Command failed with exit code: 32512\n" : Str) ∧
    (execLine simHost ⟨[], [], []⟩ simWorld ("true" : Str)).calls = [("true" : Str)] ∧
    (execLine simHost ⟨[], [], []⟩ simWorld ("true" : Str)).out = [] ∧
    showInt (-1) = ("-1" : Str) ∧ showInt 0 = ("0" : Str) ∧ showInt 256 = ("256" : Str) := by
  decide

/-- C4, as stated, fails: after `alias ll=ls -la` the line `ll extra` is
compared under the name `ls -la`, not under the first word `ls` of the alias
value; it takes the final `else` and is handed to the host interpreter as
`ls -la extra`, and the directory listing does not run. -/
theorem multiword_alias_counterexample :
    (session simHost simWorld [("alias ll=ls -la" : Str)]).self.aliases =
      [(("ll" : Str), ("ls -la" : Str))] ∧
    commandName [(("ll" : Str), ("ls -la" : Str))] ("ll extra" : Str) ≠
      some ((firstWord ("ls -la" : Str)).map tolower) ∧
    commandName [(("ll" : Str), ("ls -la" : Str))] ("ll extra" : Str) = some ("ls -la" : Str) ∧
    selectBranch ("ls -la" : Str) ≠ Branch.ls ∧
    (session simHost simWorld [("alias ll=ls -la" : Str), ("ll extra" : Str)]).calls =
      [("ls -la extra" : Str)] := by
  decide

/-- C4, amended: when the first token of a line is an alias whose value has a
whitespace character, the command name compared against the built-in names is
the whole value, lower-cased; it is no built-in name, and the line is handed
to the host interpreter as the C string of the value followed by the remaining
tokens, joined with single spaces: the joined text up to its first NUL byte,
the joined text itself when it has none. -/
theorem multiword_alias_is_forwarded {W : Type} (h : Host W) (self : CommandPrompt) (w : W)
    (input arg0 value : Str) (rest : List Str)
    (htok : parseCommand input = arg0 :: rest)
    (hkey : mapFind self.aliases arg0 = some value)
    (hsp : ∃ c ∈ value, isspace c = true) :
    commandName self.aliases input = some (value.map tolower) ∧
    value.map tolower ∉ builtinNames ∧
    selectBranch (value.map tolower) = Branch.system ∧
    (execLine h self w input).calls = [c_str (spaceJoined (value :: rest))] ∧
    (Char.ofNat 0 ∉ spaceJoined (value :: rest) →
      (execLine h self w input).calls = [spaceJoined (value :: rest)]) := by
  have hres : resolveAlias self.aliases arg0 = value := by
    simp only [resolveAlias, hkey]
  have hnb := lower_not_builtin_of_space hsp
  have hcalls : (execLine h self w input).calls = [c_str (spaceJoined (value :: rest))] := by
    rw [execLine_of_tokens h self w input arg0 rest htok, hres,
      selectBranch_of_not_builtin hnb, runBranch_system]
  refine ⟨?_, hnb, selectBranch_of_not_builtin hnb, hcalls, ?_⟩
  · rw [commandName_of_tokens _ _ _ _ htok, hres]
  · intro hz
    rw [hcalls, c_str_of_not_mem hz]

/-- C4, amended, on the line `ll extra` with `ll` standing for `ls -la`. -/
theorem multiword_alias_is_forwarded_witness :
    (parseCommand ("ll extra" : Str) = [("ll" : Str), ("extra" : Str)] ∧
      mapFind [(("ll" : Str), ("ls -la" : Str))] ("ll" : Str) = some ("ls -la" : Str) ∧
      ∃ c ∈ ("ls -la" : Str), isspace c = true) ∧
    (execLine simHost ⟨[], [], [(("ll" : Str), ("ls -la" : Str))]⟩ simWorld
      ("ll extra" : Str)).calls = [("ls -la extra" : Str)] :=
  ⟨⟨by decide, by decide, ⟨' ', by decide, by decide⟩⟩,
    (multiword_alias_is_forwarded simHost ⟨[], [], [(("ll" : Str), ("ls -la" : Str))]⟩ simWorld
      ("ll extra" : Str) ("ll" : Str) ("ls -la" : Str) [("extra" : Str)]
      (by decide) (by decide) ⟨' ', by decide, by decide⟩).2.2.2.1.trans (by decide)⟩

/-- C5: alias resolution is one look-up of the first token. The tokens handed
on are the tokens of the line with the first one replaced by its table value
when it is a key (compared exactly), every other token as typed, and the
branch is chosen by the lower-cased replacement, which is not looked up
again; so a forwarded line reaches the host as the C string of these tokens
joined with single spaces (the joined text itself when it has no NUL byte),
and `echo` prints the remaining tokens as typed. -/
theorem alias_resolution_single_level {W : Type} (h : Host W) (self : CommandPrompt) (w : W)
    (input arg0 : Str) (rest : List Str)
    (htok : parseCommand input = arg0 :: rest) :
    execLine h self w input =
      runBranch h ⟨self.history ++ [input], self.currentDir, self.aliases⟩ w input
        ((mapFind self.aliases arg0).getD arg0 :: rest)
        (selectBranch (((mapFind self.aliases arg0).getD arg0).map tolower)) ∧
    (selectBranch (((mapFind self.aliases arg0).getD arg0).map tolower) = Branch.system →
      (execLine h self w input).calls =
        [c_str (spaceJoined ((mapFind self.aliases arg0).getD arg0 :: rest))]) ∧
    (selectBranch (((mapFind self.aliases arg0).getD arg0).map tolower) = Branch.system →
      Char.ofNat 0 ∉ spaceJoined ((mapFind self.aliases arg0).getD arg0 :: rest) →
      (execLine h self w input).calls =
        [spaceJoined ((mapFind self.aliases arg0).getD arg0 :: rest)]) ∧
    (selectBranch (((mapFind self.aliases arg0).getD arg0).map tolower) = Branch.echo →
      (execLine h self w input).out = spaceJoined rest ++ ("\n" : Str)) := by
  have hex := execLine_of_tokens h self w input arg0 rest htok
  rw [resolveAlias_eq_getD] at hex
  refine ⟨hex, ?_, ?_, ?_⟩
  · intro hb
    rw [hex, hb, runBranch_system]
  · intro hb hz
    rw [hex, hb, runBranch_system, c_str_of_not_mem hz]
  · intro hb
    rw [hex, hb]
    exact echoText_eq _ rest

/-- C5 with `a` standing for `b` and `b` for `help`: the line `a` is handed
to the host interpreter as `b`, and the help text is not printed. -/
theorem alias_resolution_single_level_witness :
    parseCommand ("a" : Str) = [("a" : Str)] ∧
    (execLine simHost ⟨[], [], [(("a" : Str), ("b" : Str)), (("b" : Str), ("help" : Str))]⟩
      simWorld ("a" : Str)).calls = [("b" : Str)] :=
  ⟨by decide,
    ((alias_resolution_single_level simHost
      ⟨[], [], [(("a" : Str), ("b" : Str)), (("b" : Str), ("help" : Str))]⟩
      simWorld ("a" : Str) ("a" : Str) [] (by decide)).2.1 (by decide)).trans (by decide)⟩

/-- With `a` standing for `b` and `b` for `help`, the line `a` prints no help
text and `echo a` prints `a`. -/
theorem alias_resolution_examples :
    (execLine simHost ⟨[], [], [(("a" : Str), ("b" : Str)), (("b" : Str), ("help" : Str))]⟩
      simWorld ("a" : Str)).out ≠ showHelp ∧
    (execLine simHost ⟨[], [], [(("a" : Str), ("b" : Str)), (("b" : Str), ("help" : Str))]⟩
      simWorld ("echo a" : Str)).out = ("a\n" : Str) := by
  decide

theorem resolveAlias_of_not_key {aliases : AliasMap} {command : Str}
    (hkey : mapFind aliases command = none) : resolveAlias aliases command = command := by
  simp only [resolveAlias, hkey]

/-- C6: a line whose first token spells a built-in name in any mix of upper-
and lower-case letters, and is not an alias, takes the branch of the
lower-case name, which is a branch `run` handles itself; the tokens reach the
branch as typed. -/
theorem builtin_match_ignores_case {W : Type} (h : Host W) (self : CommandPrompt) (w : W)
    (input arg0 name : Str) (rest : List Str)
    (hname : name ∈ builtinNames)
    (hsp : isSpelling arg0 name = true)
    (hkey : mapFind self.aliases arg0 = none)
    (htok : parseCommand input = arg0 :: rest) :
    execLine h self w input =
      runBranch h ⟨self.history ++ [input], self.currentDir, self.aliases⟩ w input
        (arg0 :: rest) (selectBranch name) ∧
    selectBranch name ≠ Branch.system := by
  have hex := execLine_of_tokens h self w input arg0 rest htok
  rw [resolveAlias_of_not_key hkey,
    map_tolower_of_isSpelling arg0 name (builtinNames_lower name hname) hsp] at hex
  exact ⟨hex, selectBranch_of_builtin hname⟩

/-- C6 on the line `ECHO Test`: it prints `Test`. -/
theorem builtin_match_ignores_case_witness :
    (("echo" : Str) ∈ builtinNames ∧ isSpelling ("ECHO" : Str) ("echo" : Str) = true ∧
      mapFind [] ("ECHO" : Str) = none ∧
      parseCommand ("ECHO Test" : Str) = [("ECHO" : Str), ("Test" : Str)]) ∧
    (execLine simHost ⟨[], [], []⟩ simWorld ("ECHO Test" : Str)).out = ("Test\n" : Str) :=
  ⟨⟨by decide, by decide, by decide, by decide⟩,
    (congrArg Step.out (builtin_match_ignores_case simHost ⟨[], [], []⟩ simWorld
      ("ECHO Test" : Str) ("ECHO" : Str) ("echo" : Str) [("Test" : Str)]
      (by decide) (by decide) (by decide) (by decide)).1).trans (by decide)⟩

/-- The lines `HELP`, `Help` and `help` all print the help text. -/
theorem help_in_any_case :
    (execLine simHost ⟨[], [], []⟩ simWorld ("HELP" : Str)).out = showHelp ∧
    (execLine simHost ⟨[], [], []⟩ simWorld ("Help" : Str)).out = showHelp ∧
    (execLine simHost ⟨[], [], []⟩ simWorld ("help" : Str)).out = showHelp := by
  decide

/-- C8: when `chdir` fails on a path argument other than `~` (the call is
`chdir(path.c_str())`), the command `cd` leaves the stored directory and the
alias table as they were, prints `Directory not found:` with the path as
typed, and the loop goes on. -/
theorem cd_failure_changes_nothing {W : Type} (h : Host W) (self : CommandPrompt) (w : W)
    (input arg0 path : Str) (rest : List Str)
    (htok : parseCommand input = arg0 :: path :: rest)
    (hcd : (resolveAlias self.aliases arg0).map tolower = ("cd" : Str))
    (hpath : path ≠ ("~" : Str))
    (hfail : (h.chdir (c_str path) w).1 = false) :
    (execLine h self w input).self.currentDir = self.currentDir ∧
    (execLine h self w input).self.aliases = self.aliases ∧
    (execLine h self w input).flow = Flow.next ∧
    (execLine h self w input).calls = [] ∧
    (execLine h self w input).out =
      ("Directory not found: " : Str) ++ path ++ ("\n" : Str) := by
  have hne : path ≠ [] :=
    parseCommand_ne_nil input path (by rw [htok]; simp)
  have hemp : path.isEmpty = false := by
    cases path with
    | nil => exact absurd rfl hne
    | cons _ _ => rfl
  have hbr : selectBranch ("cd" : Str) = Branch.cd := by decide
  have hcdir : changeDirectory h ⟨self.history ++ [input], self.currentDir, self.aliases⟩ w path =
      (⟨self.history ++ [input], self.currentDir, self.aliases⟩, (h.chdir (c_str path) w).2,
        ("Directory not found: " : Str) ++ path ++ ("\n" : Str)) := by
    simp only [changeDirectory, hemp, hpath, hfail, Bool.false_eq_true, or_self, if_false]
  rw [execLine_of_tokens h self w input arg0 (path :: rest) htok, hcd, hbr]
  simp only [runBranch, List.length_cons, gt_iff_lt, Nat.lt_add_left_iff_pos, Nat.zero_lt_succ,
    if_true, List.getD_cons_succ, List.getD_cons_zero, hcdir, and_self]

/-- C8 on the line `cd /nope`. -/
theorem cd_failure_changes_nothing_witness :
    (parseCommand ("cd /nope" : Str) = [("cd" : Str), ("/nope" : Str)] ∧
      (resolveAlias [] ("cd" : Str)).map tolower = ("cd" : Str) ∧
      ("/nope" : Str) ≠ ("~" : Str) ∧
      (simHost.chdir (c_str ("/nope" : Str)) simWorld).1 = false) ∧
    (execLine simHost ⟨[], ("/home/user" : Str), []⟩ simWorld ("cd /nope" : Str)).out =
      ("Directory not found: /nope\n" : Str) :=
  ⟨⟨by decide, by decide, by decide, by decide⟩,
    (cd_failure_changes_nothing simHost ⟨[], ("/home/user" : Str), []⟩ simWorld
      ("cd /nope" : Str) ("cd" : Str) ("/nope" : Str) []
      (by decide) (by decide) (by decide) (by decide)).2.2.2.2.trans (by decide)⟩

/-- C9: for a non-empty enumeration the report is the banner, then one
Ethernet block for each record that is not loopback-flagged, in enumeration
order, then the Tunnel block of the first loopback-flagged record when there
is one, and nothing more. -/
theorem ipconfig_report {W : Type} (h : Host W) (w : W)
    (hne : (getNetworkInterfaces h w).2 ≠ []) :
    displayIpConfig h w =
      ("\nWindows IP Configuration\n\n" : Str) ++ (getNetworkInterfaces h w).1 ++
        (((getNetworkInterfaces h w).2.filter (fun i => !i.isLoopback)).map
          ethernetBlock).flatten ++
        tunnelPart (getNetworkInterfaces h w).2 := by
  have hemp : (getNetworkInterfaces h w).2.isEmpty = false := by
    cases hl : (getNetworkInterfaces h w).2 with
    | nil => exact absurd hl hne
    | cons _ _ => rfl
  simp only [displayIpConfig, hemp, Bool.false_eq_true, if_false, tunnelLoop_eq, ethernetLoop_eq]

/-- C9 on one active interface followed by two loopback interfaces: one
Ethernet block, then the Tunnel block of the first loopback interface. -/
theorem ipconfig_report_witness :
    (getNetworkInterfaces simHost simWorld).2 ≠ [] ∧
    displayIpConfig simHost simWorld =
      ("\nWindows IP Configuration\n\n" : Str) ++
        ethernetBlock ⟨"eth0", "10.0.0.5", "255.255.255.0", [], "192.168.1.1", true, false⟩ ++
        tunnelBlock ⟨"lo", "127.0.0.1", "255.0.0.0", [], [], true, true⟩ :=
  ⟨by decide, (ipconfig_report simHost simWorld (by decide)).trans (by decide)⟩

theorem find_eq_npos_of_not_mem {s : Str} {c : Char} (hc : c ∉ s) : find s c = npos := by
  unfold find
  rw [if_neg]
  intro hlt
  exact hc (List.indexOf_lt_length.mp hlt)

/-- A first token that selects the `alias` branch has no equals sign, when no
key of the table has one. -/
theorem eq_not_mem_alias_word {aliases : AliasMap} {arg0 : Str}
    (hk : KeysWithoutEq aliases)
    (halias : (resolveAlias aliases arg0).map tolower = ("alias" : Str)) : '=' ∉ arg0 := by
  cases hf : mapFind aliases arg0 with
  | some value => exact hk _ (mem_of_mapFind aliases arg0 value hf)
  | none =>
    rw [resolveAlias_of_not_key hf] at halias
    intro hmem
    have h1 : tolower '=' ∈ arg0.map tolower := List.mem_map_of_mem tolower hmem
    rw [halias] at h1
    revert h1
    decide

/-- The `alias` branch on tokens without an equals sign, in a state whose keys
have none: the usage line, and nothing changes. -/
theorem alias_usage_of_keys {W : Type} (h : Host W) (self : CommandPrompt) (w : W)
    (input arg0 : Str) (rest : List Str)
    (hk : KeysWithoutEq self.aliases)
    (htok : parseCommand input = arg0 :: rest)
    (halias : (resolveAlias self.aliases arg0).map tolower = ("alias" : Str))
    (hargs : ∀ a ∈ rest, '=' ∉ a) :
    execLine h self w input =
      ⟨Flow.next, ⟨self.history ++ [input], self.currentDir, self.aliases⟩, w,
        ("Usage: alias name=command\n" : Str), []⟩ := by
  have h0 : '=' ∉ arg0 := eq_not_mem_alias_word hk halias
  have hin : '=' ∉ input := by
    intro hmem
    obtain ⟨t, ht, hxt⟩ := parseCommand_covers (by decide : isspace '=' = false) hmem
    rw [htok] at ht
    rcases List.mem_cons.mp ht with ht1 | ht1
    · exact h0 (ht1 ▸ hxt)
    · exact hargs t ht1 hxt
  have harg : '=' ∉ aliasArg input := fun hmem => hin (List.mem_of_mem_drop hmem)
  have hbr : selectBranch ("alias" : Str) = Branch.alias := by decide
  rw [execLine_of_tokens h self w input arg0 rest htok, halias, hbr, runBranch_alias,
    find_eq_npos_of_not_mem harg, if_pos rfl]
  split_ifs <;> rfl

/-- C7: at any point of a session, a line that dispatches to `alias` and has
no argument, or only arguments without an equals sign, prints exactly the
line `Usage: alias name=command` and leaves the alias table (and the stored
directory) as it was; both paths give the same result. -/
theorem alias_without_eq_prints_usage {W : Type} (h : Host W) (w0 w : W)
    (prior : List Str) (input arg0 : Str) (rest : List Str)
    (htok : parseCommand input = arg0 :: rest)
    (halias : (resolveAlias (session h w0 prior).self.aliases arg0).map tolower =
      ("alias" : Str))
    (hargs : ∀ a ∈ rest, '=' ∉ a) :
    (execLine h (session h w0 prior).self w input).out = ("Usage: alias name=command\n" : Str) ∧
    (execLine h (session h w0 prior).self w input).self.aliases =
      (session h w0 prior).self.aliases ∧
    (execLine h (session h w0 prior).self w input).self.currentDir =
      (session h w0 prior).self.currentDir ∧
    (execLine h (session h w0 prior).self w input).world = w ∧
    (execLine h (session h w0 prior).self w input).calls = [] ∧
    (execLine h (session h w0 prior).self w input).flow = Flow.next := by
  rw [alias_usage_of_keys h (session h w0 prior).self w input arg0 rest
    (session_keys h w0 prior) htok halias hargs]
  exact ⟨rfl, rfl, rfl, rfl, rfl, rfl⟩

/-- C7 on the line `alias x y`, after `alias ll=ls -la`. -/
theorem alias_without_eq_prints_usage_witness :
    (parseCommand ("alias x y" : Str) = [("alias" : Str), ("x" : Str), ("y" : Str)] ∧
      (resolveAlias (session simHost simWorld [("alias ll=ls -la" : Str)]).self.aliases
        ("alias" : Str)).map tolower = ("alias" : Str) ∧
      ∀ a ∈ [("x" : Str), ("y" : Str)], '=' ∉ a) ∧
    (execLine simHost (session simHost simWorld [("alias ll=ls -la" : Str)]).self simWorld
      ("alias x y" : Str)).self.aliases = [(("ll" : Str), ("ls -la" : Str))] :=
  ⟨⟨by decide, by decide, by decide⟩,
    (alias_without_eq_prints_usage simHost simWorld simWorld [("alias ll=ls -la" : Str)]
      ("alias x y" : Str) ("alias" : Str) [("x" : Str), ("y" : Str)]
      (by decide) (by decide) (by decide)).2.1.trans (by decide)⟩

/-- The line `alias` alone and the line `alias x y` leave the same output. -/
theorem alias_usage_paths_agree :
    (execLine simHost ⟨[], [], []⟩ simWorld ("alias" : Str)).out =
      ("Usage: alias name=command\n" : Str) ∧
    (execLine simHost ⟨[], [], []⟩ simWorld ("alias x y" : Str)).out =
      ("Usage: alias name=command\n" : Str) := by
  decide

/-- C10 fails on `ipconfig`: `run` handles the name itself, and the text of
`showHelp` does not contain it, while it contains every other built-in name. -/
theorem help_omits_ipconfig :
    ("ipconfig" : Str) ∈ builtinNames ∧
    selectBranch ("ipconfig" : Str) = Branch.ipconfig ∧
    ¬ (("ipconfig" : Str) <:+: showHelp) ∧
    ∀ name ∈ builtinNames, name ≠ ("ipconfig" : Str) → name <:+: showHelp := by
  decide

/-- C3 fails when the command word is not directly followed by the first
space character of the line. The line `alias foo=bar baz` maps `foo` to
`bar baz`; with a leading space the line maps `alias foo` to `bar`, and with a
tab after the command word it maps the command word, the tab and `foo` to
`bar`; in both cases `foo` stays unmapped. -/
theorem alias_argument_starts_after_first_space :
    (execLine simHost ⟨[], [], []⟩ simWorld ("alias foo=bar baz" : Str)).self.aliases =
      [(("foo" : Str), ("bar baz" : Str))] ∧
    parseCommand (" alias foo=bar" : Str) = [("alias" : Str), ("foo=bar" : Str)] ∧
    (execLine simHost ⟨[], [], []⟩ simWorld (" alias foo=bar" : Str)).self.aliases =
      [(("alias foo" : Str), ("bar" : Str))] ∧
    (execLine simHost ⟨[], [], []⟩ simWorld (" alias foo=bar" : Str)).out =
      ("Alias created: alias foo -> bar\n" : Str) ∧
    mapFind (execLine simHost ⟨[], [], []⟩ simWorld (" alias foo=bar" : Str)).self.aliases
      ("foo" : Str) = none ∧
    parseCommand ("alias\tfoo=bar" : Str) = [("alias" : Str), ("foo=bar" : Str)] ∧
    (execLine simHost ⟨[], [], []⟩ simWorld ("alias\tfoo=bar" : Str)).self.aliases =
      [(("alias\tfoo" : Str), ("bar" : Str))] ∧
    mapFind (execLine simHost ⟨[], [], []⟩ simWorld ("alias\tfoo=bar" : Str)).self.aliases
      ("foo" : Str) = none := by
  decide

/-! ## The alias command on a line that starts with the command word -/

theorem take_find_last_not_of (s set : Str) (hlen : s.length < npos) :
    s.take (sizeAdd (find_last_not_of s set) 1) =
      s.rdropWhile (fun c => set.contains c) := by
  have hr : s.rdropWhile (fun c => set.contains c) =
      s.take (s.length - s.reverse.findIdx (fun c => !(set.contains c))) := by
    unfold List.rdropWhile
    rw [List.dropWhile_eq_drop_findIdx_not, List.drop_reverse, List.reverse_reverse]
  have hle : s.reverse.findIdx (fun c => !(set.contains c)) ≤ s.reverse.length :=
    List.findIdx_le_length _
  rw [List.length_reverse] at hle
  rw [hr]
  unfold find_last_not_of
  split_ifs with hlt
  · congr 1
    unfold sizeAdd
    unfold npos at hlen
    rw [Nat.mod_eq_of_lt (by omega)]
    omega
  · rw [sizeAdd_npos]
    congr 1
    omega

theorem drop_find_first_not_of (s set : Str) (hlen : s.length ≤ npos) :
    s.drop (find_first_not_of s set) = s.dropWhile (fun c => set.contains c) := by
  rw [List.dropWhile_eq_drop_findIdx_not]
  have hle : s.findIdx (fun c => !(set.contains c)) ≤ s.length :=
    List.findIdx_le_length _
  unfold find_first_not_of
  split_ifs with hlt
  · rfl
  · rw [List.drop_of_length_le hlen, List.drop_of_length_le (by omega)]

/-- The trimming of `createAlias` removes the leading and trailing spaces and
horizontal tabs. -/
theorem trimmed_eq_trimBlank (s : Str) (hlen : s.length < npos) : trimmed s = trimBlank s := by
  unfold trimmed
  rw [take_find_last_not_of s _ hlen, drop_find_first_not_of]
  · rfl
  · exact le_trans (List.rdropWhile_prefix _ _).length_le (Nat.le_of_lt hlen)

/-- No token contains a whitespace character. -/
theorem parseLoop_no_space : ∀ (s token : Str), (∀ c ∈ token, isspace c = false) →
    ∀ t ∈ parseLoop s token, ∀ c ∈ t, isspace c = false
  | [], token, htk, t, ht => by
    unfold parseLoop at ht
    split_ifs at ht with he
    · simp at ht
    · simp only [List.mem_singleton] at ht
      subst ht
      exact htk
  | x :: rest, token, htk, t, ht => by
    unfold parseLoop at ht
    split_ifs at ht with hx he
    · exact parseLoop_no_space rest [] (by simp) t ht
    · rcases List.mem_cons.mp ht with h | h
      · subst h
        exact htk
      · exact parseLoop_no_space rest [] (by simp) t h
    · refine parseLoop_no_space rest (token ++ [x]) ?_ t ht
      intro c hc
      rcases List.mem_append.mp hc with h | h
      · exact htk c h
      · simp only [List.mem_singleton] at h
        subst h
        simpa using hx

theorem parseCommand_no_space (input : Str) :
    ∀ t ∈ parseCommand input, ∀ c ∈ t, isspace c = false :=
  parseLoop_no_space input [] (by simp)

theorem find_of_mem {s : Str} {c : Char} (hc : c ∈ s) : find s c = s.indexOf c := by
  unfold find
  rw [if_pos (List.indexOf_lt_length.mpr hc)]

theorem take_indexOf_eq_takeWhile (c : Char) (s : Str) :
    s.take (s.indexOf c) = s.takeWhile (fun x => x != c) := by
  rw [List.takeWhile_eq_take_findIdx_not]
  unfold List.indexOf
  congr 2
  funext x
  by_cases hx : x = c <;> simp [bne, hx]

theorem drop_indexOf_eq_dropWhile (c : Char) (s : Str) :
    s.drop (s.indexOf c) = s.dropWhile (fun x => x != c) := by
  rw [List.dropWhile_eq_drop_findIdx_not]
  unfold List.indexOf
  congr 2
  funext x
  by_cases hx : x = c <;> simp [bne, hx]

/-- The `alias` command on a line that starts with the command word, directly
followed by a space character, with an equals sign in the rest of the line:
the part of the rest before its first equals sign, trimmed, is mapped to the
part after it, trimmed, and the confirmation is printed. -/
theorem alias_creates_mapping {W : Type} (h : Host W) (self : CommandPrompt) (w : W)
    (input arg0 tail : Str) (rest : List Str)
    (hlen : input.length < npos)
    (htok : parseCommand input = arg0 :: rest) (hrest : rest ≠ [])
    (halias : (resolveAlias self.aliases arg0).map tolower = ("alias" : Str))
    (hline : input = arg0 ++ ' ' :: tail)
    (heq : '=' ∈ tail) :
    execLine h self w input =
      ⟨Flow.next,
        ⟨self.history ++ [input], self.currentDir,
          mapAssign self.aliases (trimBlank (tail.takeWhile (fun x => x != '=')))
            (trimBlank ((tail.dropWhile (fun x => x != '=')).drop 1))⟩,
        w,
        ("Alias created: " : Str) ++ trimBlank (tail.takeWhile (fun x => x != '=')) ++
          (" -> " : Str) ++ trimBlank ((tail.dropWhile (fun x => x != '=')).drop 1) ++
          ("\n" : Str),
        []⟩ := by
  have hsp : ' ' ∉ arg0 := by
    intro hmem
    have := parseCommand_no_space input arg0 (by rw [htok]; exact List.mem_cons_self _ _) ' ' hmem
    revert this
    decide
  have hlen0 : input.length = arg0.length + 1 + tail.length := by
    rw [hline, List.length_append, List.length_cons]
    omega
  have hidx : input.indexOf ' ' = arg0.length := by
    rw [hline, List.indexOf_append_of_not_mem hsp, List.indexOf_cons_self]
    rfl
  have hfind : find input ' ' = arg0.length := by
    unfold find
    rw [hidx, if_pos (by omega)]
  have harg : aliasArg input = tail := by
    unfold aliasArg
    unfold npos at hlen
    rw [hfind, sizeAdd, Nat.mod_eq_of_lt (by omega), hline, List.drop_append, List.drop_one]
    rfl
  have htl : tail.length < npos := by omega
  have hi : tail.indexOf '=' < tail.length := List.indexOf_lt_length.mpr heq
  have hfe : find tail '=' = tail.indexOf '=' := find_of_mem heq
  have hne : find tail '=' ≠ npos := by
    rw [hfe]
    omega
  have hname : aliasName tail = trimBlank (tail.takeWhile (fun x => x != '=')) := by
    unfold aliasName
    rw [hfe, take_indexOf_eq_takeWhile, trimmed_eq_trimBlank]
    exact lt_of_le_of_lt (List.takeWhile_prefix _).length_le htl
  have hvalue : aliasValue tail = trimBlank ((tail.dropWhile (fun x => x != '=')).drop 1) := by
    unfold aliasValue
    unfold npos at htl
    rw [hfe, sizeAdd, Nat.mod_eq_of_lt (by omega), ← List.drop_drop, drop_indexOf_eq_dropWhile,
      trimmed_eq_trimBlank]
    unfold npos
    exact lt_of_le_of_lt (le_trans (List.drop_suffix _ _).length_le
      (List.dropWhile_suffix _).length_le) htl
  have hbr : selectBranch ("alias" : Str) = Branch.alias := by decide
  have hargs : (resolveAlias self.aliases arg0 :: rest).length > 1 := by
    cases rest with
    | nil => exact absurd rfl hrest
    | cons _ _ => simp
  rw [execLine_of_tokens h self w input arg0 rest htok, halias, hbr, runBranch_alias,
    if_pos hargs, harg, if_neg hne, hname, hvalue]

/-- The mapping of the line `alias foo=bar baz`, by the general statement. -/
theorem alias_creates_mapping_example :
    (execLine simHost ⟨[], [], []⟩ simWorld ("alias foo=bar baz" : Str)).self.aliases =
      [(("foo" : Str), ("bar baz" : Str))] :=
  (congrArg (fun r => r.self.aliases)
    (alias_creates_mapping simHost ⟨[], [], []⟩ simWorld ("alias foo=bar baz" : Str)
      ("alias" : Str) ("foo=bar baz" : Str) [("foo=bar" : Str), ("baz" : Str)]
      (by decide) (by decide) (by decide) (by decide) (by decide) (by decide))).trans
    (by decide)

end Cmd
